import Mathlib

/-!
Verification development for the tag-addressable partitioned cache store
(file-backed and GCS-backed cache handlers and their admin HTTP surface).
The definitions below are a shallow embedding of the TypeScript sources in
src/cacheHandler/file-cache-handler.ts, src/cacheHandler/gcs-cache-handler.ts
and src/app/api/cache-stats/route.ts.
-/

/-- JavaScript values as they occur in cache payloads: JSON scalars, arrays
and plain objects, plus the two non-JSON-native shapes the codec cares
about: Node `Buffer`s (a byte sequence) and JS `Map`s. Object and Map
contents are ordered association lists, like JS property order. -/
inductive JsVal where
  | null : JsVal
  | bool : Bool → JsVal
  | num : Int → JsVal
  | str : String → JsVal
  | buf : List Nat → JsVal
  | arr : List JsVal → JsVal
  | obj : List (String × JsVal) → JsVal
  | jmap : List (String × JsVal) → JsVal

abbrev Fields := List (String × JsVal)

mutual

/-- Structural (deep) equality of JS values, JS `deep-equal`. -/
def JsVal.beq : JsVal → JsVal → Bool
  | .null, .null => true
  | .bool a, .bool b => a == b
  | .num a, .num b => a == b
  | .str a, .str b => a == b
  | .buf a, .buf b => a == b
  | .arr a, .arr b => JsVal.beqList a b
  | .obj a, .obj b => JsVal.beqFields a b
  | .jmap a, .jmap b => JsVal.beqFields a b
  | _, _ => false

def JsVal.beqList : List JsVal → List JsVal → Bool
  | [], [] => true
  | x :: xs, y :: ys => JsVal.beq x y && JsVal.beqList xs ys
  | _, _ => false

def JsVal.beqFields : Fields → Fields → Bool
  | [], [] => true
  | (k1, v1) :: xs, (k2, v2) :: ys =>
      k1 == k2 && JsVal.beq v1 v2 && JsVal.beqFields xs ys
  | _, _ => false

end

mutual

theorem JsVal.beq_iff : ∀ a b : JsVal, JsVal.beq a b = true ↔ a = b
  | .null, b => by cases b <;> simp [JsVal.beq]
  | .bool x, b => by cases b <;> simp [JsVal.beq]
  | .num x, b => by cases b <;> simp [JsVal.beq]
  | .str x, b => by cases b <;> simp [JsVal.beq]
  | .buf x, b => by cases b <;> simp [JsVal.beq]
  | .arr x, b => by
      cases b <;> simp [JsVal.beq]
      exact JsVal.beqList_iff x _
  | .obj x, b => by
      cases b <;> simp [JsVal.beq]
      exact JsVal.beqFields_iff x _
  | .jmap x, b => by
      cases b <;> simp [JsVal.beq]
      exact JsVal.beqFields_iff x _

theorem JsVal.beqList_iff : ∀ xs ys : List JsVal,
    JsVal.beqList xs ys = true ↔ xs = ys
  | [], ys => by cases ys <;> simp [JsVal.beqList]
  | x :: xs, ys => by
      cases ys with
      | nil => simp [JsVal.beqList]
      | cons y ys =>
          simp [JsVal.beqList, Bool.and_eq_true, JsVal.beq_iff x y,
            JsVal.beqList_iff xs ys]

theorem JsVal.beqFields_iff : ∀ xs ys : Fields,
    JsVal.beqFields xs ys = true ↔ xs = ys
  | [], ys => by cases ys <;> simp [JsVal.beqFields]
  | (k, v) :: xs, ys => by
      cases ys with
      | nil => simp [JsVal.beqFields]
      | cons p ys =>
          obtain ⟨k2, v2⟩ := p
          simp only [JsVal.beqFields, Bool.and_eq_true, beq_iff_eq,
            JsVal.beq_iff v v2, JsVal.beqFields_iff xs ys, List.cons.injEq,
            Prod.mk.injEq]

end

instance : DecidableEq JsVal := fun a b =>
  decidable_of_iff (JsVal.beq a b = true) (JsVal.beq_iff a b)

deriving instance DecidableEq for Except

/-- First-match association-list lookup, the model of JS property access. -/
def alistLookup {α : Type} (k : String) : List (String × α) → Option α
  | [] => none
  | (k2, v) :: rest => if k2 = k then some v else alistLookup k rest

/-- Overwrite the value stored under an existing key, the model of JS
property assignment on a key that is present. -/
def alistMapSet {α : Type} (k : String) (v : α) (l : List (String × α)) :
    List (String × α) :=
  l.map (fun p => if p.1 = k then (k, v) else p)

/-- Write-or-create: the model of creating or overwriting a file / bucket
object under a name (a fresh name is appended at the end). -/
def alistPut {α : Type} (k : String) (v : α) (l : List (String × α)) :
    List (String × α) :=
  if (alistLookup k l).isSome then alistMapSet k v l else l ++ [(k, v)]

/-- Remove every binding of a name, the model of unlink / object deletion. -/
def alistRemove {α : Type} (k : String) (l : List (String × α)) :
    List (String × α) :=
  l.filter (fun p => p.1 ≠ k)

/-- Keys of the association list are pairwise distinct, as JS object keys
always are. -/
abbrev keysNodup {α : Type} (l : List (String × α)) : Prop :=
  (l.map Prod.fst).Nodup

/-! ### Base64, the text encoding Node uses for Buffer contents
`Buffer.prototype.toString('base64')` and `Buffer.from(text, 'base64')`,
standard RFC 4648 base64 with padding. -/

def b64Alphabet : List Char :=
  "ABCDEFGHIJKLMNOPQRSTUVWXYZabcdefghijklmnopqrstuvwxyz0123456789+/".toList

def sextetChar (n : Nat) : Char := b64Alphabet.getD n 'A'

def charSextet (c : Char) : Nat := b64Alphabet.indexOf c

/-- Encode a byte list three bytes at a time into four base64 characters,
padding the final group with `=`. -/
def b64encodeChunks : List Nat → List Char
  | [] => []
  | [a] => [sextetChar (a / 4), sextetChar (a % 4 * 16), '=', '=']
  | [a, b] => [sextetChar (a / 4), sextetChar (a % 4 * 16 + b / 16),
      sextetChar (b % 16 * 4), '=']
  | a :: b :: d :: rest =>
      sextetChar (a / 4) :: sextetChar (a % 4 * 16 + b / 16) ::
      sextetChar (b % 16 * 4 + d / 64) :: sextetChar (d % 64) ::
      b64encodeChunks rest

def b64encode (bs : List Nat) : String := String.mk (b64encodeChunks bs)


/-- Decode base64 text four characters at a time, honouring `=` padding. -/
def b64decodeChars : List Char → List Nat
  | c1 :: c2 :: c3 :: c4 :: rest =>
      if c3 = '=' then [charSextet c1 * 4 + charSextet c2 / 16]
      else if c4 = '=' then
        [charSextet c1 * 4 + charSextet c2 / 16,
         charSextet c2 % 16 * 16 + charSextet c3 / 4]
      else
        (charSextet c1 * 4 + charSextet c2 / 16) ::
        (charSextet c2 % 16 * 16 + charSextet c3 / 4) ::
        (charSextet c3 % 4 * 64 + charSextet c4) ::
        b64decodeChars rest
  | _ => []

def b64decode (s : String) : List Nat := b64decodeChars s.toList

/-! ### The JSON text medium
Cache blobs are written with `JSON.stringify` and read back with
`JSON.parse`. `jsonRT` is the value produced by parsing the stringified
form: JSON-native shapes survive unchanged, a `Buffer` stringifies through
`Buffer.prototype.toJSON` into a tagged plain object carrying the byte
numbers, and a `Map` has no enumerable own properties so it stringifies to
the empty object. -/

mutual

def jsonRT : JsVal → JsVal
  | .null => .null
  | .bool b => .bool b
  | .num n => .num n
  | .str s => .str s
  | .buf bs => .obj [("type", .str "Buffer"),
      ("data", .arr (bs.map (fun b => JsVal.num (Int.ofNat b))))]
  | .arr xs => .arr (jsonRTList xs)
  | .obj fs => .obj (jsonRTFields fs)
  | .jmap _ => .obj []

def jsonRTList : List JsVal → List JsVal
  | [] => []
  | v :: vs => jsonRT v :: jsonRTList vs

def jsonRTFields : Fields → Fields
  | [] => []
  | (k, v) :: fs => (k, jsonRT v) :: jsonRTFields fs

end

mutual

/-- The value contains no `Buffer` and no `Map` anywhere, so the JSON text
medium transports it losslessly. -/
def jsonSafe : JsVal → Bool
  | .null => true
  | .bool _ => true
  | .num _ => true
  | .str _ => true
  | .buf _ => false
  | .arr xs => jsonSafeList xs
  | .obj fs => jsonSafeFields fs
  | .jmap _ => false

def jsonSafeList : List JsVal → Bool
  | [] => true
  | v :: vs => jsonSafe v && jsonSafeList vs

def jsonSafeFields : Fields → Bool
  | [] => true
  | (_, v) :: fs => jsonSafe v && jsonSafeFields fs

end

/-! ### The serialization codec
`FileCacheHandler.serializeForStorage` (file-cache-handler.ts lines
299–358) and `FileCacheHandler.deserializeFromStorage` (lines 360–412).
Both walk a value that is an object, treating exactly three fields:
`body`, `rscData` (a `Buffer` is wrapped into a base64 envelope) and
`segmentData` (a `Map` is wrapped into an envelope whose entry values get
the same `Buffer` handling). -/

/-- The envelope a `Buffer` is serialized into. -/
def bufEnvelope (bs : List Nat) : JsVal :=
  .obj [("type", .str "Buffer"), ("data", .str (b64encode bs))]

/-- Per-entry `Buffer` handling inside `segmentData` (lines 329–338). -/
def serializeSegEntry : JsVal → JsVal
  | .buf bs => bufEnvelope bs
  | w => w

/-- The envelope a `segmentData` `Map` is serialized into (lines 339–342). -/
def mapEnvelope (es : Fields) : JsVal :=
  .obj [("type", .str "Map"),
        ("data", .obj (es.map (fun p => (p.1, serializeSegEntry p.2))))]

/-- Serialize one of the two Buffer-carrying fields (`body`, lines 311–316,
and `rscData`, lines 319–324, are the same block at two field names):
if the field is present and holds a `Buffer`, replace it by its envelope. -/
def serializeBufField (name : String) (fs : Fields) : Fields :=
  match alistLookup name fs with
  | some (.buf bs) => alistMapSet name (bufEnvelope bs) fs
  | _ => fs

/-- Serialize the `segmentData` field (lines 327–343): if present and a
`Map` instance, replace it by its envelope. -/
def serializeSegField (fs : Fields) : Fields :=
  match alistLookup "segmentData" fs with
  | some (.jmap es) => alistMapSet "segmentData" (mapEnvelope es) fs
  | _ => fs

/-- JS `value && typeof value === 'object'`: objects, arrays, Maps and
Buffers all pass (null is falsy). -/
def truthyObject : JsVal → Bool
  | .obj _ => true
  | .arr _ => true
  | .jmap _ => true
  | .buf _ => true
  | _ => false

/-- Fields of the spread copy `\x7b...value\x7d`: a plain object keeps its
fields, an array or Buffer spreads into index-keyed fields, a Map has no
enumerable own properties. -/
def spreadIndexed : Nat → List JsVal → Fields
  | _, [] => []
  | i, v :: vs => (toString i, v) :: spreadIndexed (i + 1) vs

def spreadToObj : JsVal → Fields
  | .obj fs => fs
  | .arr xs => spreadIndexed 0 xs
  | .buf bs => spreadIndexed 0 (bs.map (fun b => JsVal.num (Int.ofNat b)))
  | _ => []

/-- `serializeForStorage` restricted to the `value` of one entry: the
serialized form of the value (lines 307–348); non-object values pass
through unchanged (lines 349–351). -/
def serializeValue (v : JsVal) : JsVal :=
  if truthyObject v then
    .obj (serializeSegField (serializeBufField "rscData"
      (serializeBufField "body" (spreadToObj v))))
  else v

/-- `Buffer.from(x, 'base64')` as applied by the deserializer to the
envelope's `data` property: a string is base64-decoded; an array of
numbers is taken as bytes (`Buffer.from` ignores the encoding argument for
arrays and truncates each element to a byte); a missing or other-typed
`data` makes `Buffer.from` throw. -/
def jsByte : JsVal → Nat
  | .num n => (n % 256).toNat
  | _ => 0

def bufferFromJs : Option JsVal → Except Unit (List Nat)
  | some (.str s) => .ok (b64decode s)
  | some (.arr ns) => .ok (ns.map jsByte)
  | _ => .error ()

/-- Deserialize one Buffer-carrying field (`body`, lines 371–375, and
`rscData`, lines 378–382): if the field holds an object tagged
`type: 'Buffer'`, replace it by the Buffer rebuilt from `data`. -/
def deserializeBufField (name : String) (fs : Fields) : Except Unit Fields :=
  match alistLookup name fs with
  | some (.obj bfs) =>
      if alistLookup "type" bfs = some (.str "Buffer") then
        (bufferFromJs (alistLookup "data" bfs)).map
          (fun bs => alistMapSet name (.buf bs) fs)
      else .ok fs
  | _ => .ok fs

/-- Per-entry Buffer handling when rebuilding a `segmentData` Map
(lines 390–394). -/
def deserializeSegEntry : JsVal → Except Unit JsVal
  | .obj ofs =>
      if alistLookup "type" ofs = some (.str "Buffer") then
        (bufferFromJs (alistLookup "data" ofs)).map JsVal.buf
      else .ok (.obj ofs)
  | w => .ok w

def deserializeSegEntries : Fields → Except Unit Fields
  | [] => .ok []
  | (k, w) :: rest => do
      let w2 ← deserializeSegEntry w
      let r ← deserializeSegEntries rest
      .ok ((k, w2) :: r)

/-- Deserialize the `segmentData` field (lines 385–397): an object tagged
`type: 'Map'` is rebuilt into a Map from its `data` object's entries.
`Object.entries` of a missing or non-object `data` does not reproduce the
original Map (and throws on undefined/null); such shapes are never
produced by the serializer and are modelled as a decode failure. -/
def deserializeSegField (fs : Fields) : Except Unit Fields :=
  match alistLookup "segmentData" fs with
  | some (.obj sfs) =>
      if alistLookup "type" sfs = some (.str "Map") then
        match alistLookup "data" sfs with
        | some (.obj es) =>
            (deserializeSegEntries es).map
              (fun es2 => alistMapSet "segmentData" (.jmap es2) fs)
        | _ => .error ()
      else .ok fs
  | _ => .ok fs

/-- `deserializeFromStorage` restricted to the `value` of one entry
(lines 367–402); non-object values pass through unchanged. A thrown
`Buffer.from` / `Object.entries` surfaces as `.error` and is caught by
`readCacheEntry`. -/
def deserializeValue (v : JsVal) : Except Unit JsVal :=
  if truthyObject v then do
    let f1 ← deserializeBufField "body" (spreadToObj v)
    let f2 ← deserializeBufField "rscData" f1
    let f3 ← deserializeSegField f2
    .ok (.obj f3)
  else .ok v

/-- The full codec round trip of one value: serialize for storage, cross
the JSON text medium, deserialize. -/
def codecRoundTrip (v : JsVal) : Except Unit JsVal :=
  deserializeValue (jsonRT (serializeValue v))

/-! ### Supported payload shapes
The positions at which the codec handles non-JSON-native data, read off
the three field-specific blocks of `serializeForStorage` /
`deserializeFromStorage`: a `Buffer` directly under `body` or `rscData`,
and a `Map` under `segmentData` whose entry values may be `Buffer`s.
Everything else must be JSON-native, and a plain field must not
accidentally look like a decode envelope. -/

def bytesOk (bs : List Nat) : Bool := bs.all (fun b => b < 256)

/-- The value would not falsely trip the deserializer's Buffer-envelope
test (an object whose `type` property is the string `Buffer`). -/
def notBufTagged : JsVal → Bool
  | .obj bfs => decide (alistLookup "type" bfs ≠ some (JsVal.str "Buffer"))
  | _ => true

/-- The value would not falsely trip the deserializer's Map-envelope test. -/
def notMapTagged : JsVal → Bool
  | .obj sfs => decide (alistLookup "type" sfs ≠ some (JsVal.str "Map"))
  | _ => true

def bufFieldOk : Option JsVal → Bool
  | none => true
  | some (.buf bs) => bytesOk bs
  | some w => jsonSafe w && notBufTagged w

def segEntryOk : JsVal → Bool
  | .buf bs => bytesOk bs
  | w => jsonSafe w && notBufTagged w

def segFieldOk : Option JsVal → Bool
  | none => true
  | some (.jmap es) => es.all (fun p => segEntryOk p.2)
  | some w => jsonSafe w && notMapTagged w

/-- A structured payload the codec supports: an object (JS property keys
are unique) whose `body` and `rscData` fields, when present, are byte
buffers or plain JSON-native values, whose `segmentData` field, when
present, is a Map with buffer or plain entry values, and whose remaining
fields are JSON-native. -/
def supportedValue : JsVal → Bool
  | .obj fs =>
      decide (keysNodup fs) &&
      bufFieldOk (alistLookup "body" fs) &&
      bufFieldOk (alistLookup "rscData" fs) &&
      segFieldOk (alistLookup "segmentData" fs) &&
      fs.all (fun p =>
        if p.1 = "body" ∨ p.1 = "rscData" ∨ p.1 = "segmentData" then true
        else jsonSafe p.2)
  | _ => false

/-! ### Cache entries, blobs and the store state
`CacheHandlerValue` (types.ts): the record `set` builds and `get` returns.
A durable blob is the JSON text of a serialized entry; since only
`writeCacheEntry` produces blobs, a parseable blob always has the entry
shape, and corruption is modelled by the unparseable case. -/

structure CacheHandlerValue where
  value : JsVal
  lastModified : Nat
  tags : List String
deriving DecidableEq

/-- `serializeForStorage` on the one-entry record `writeCacheEntry` passes
it (the `entry && 'value' in entry` guard holds for every entry): the
spread keeps `lastModified` and `tags`, the value is serialized. -/
def serializeForStorage (e : CacheHandlerValue) : CacheHandlerValue :=
  { e with value := serializeValue e.value }

/-- Crossing the JSON text medium at entry level: numbers and string lists
survive, the value is transported as `jsonRT` describes. -/
def jsonRTEntry (e : CacheHandlerValue) : CacheHandlerValue :=
  { e with value := jsonRT e.value }

/-- `deserializeFromStorage` on a one-entry record; a decode failure
(a throwing `Buffer.from` / `Object.entries`) is an `.error`. -/
def deserializeFromStorage (e : CacheHandlerValue) :
    Except Unit CacheHandlerValue :=
  (deserializeValue e.value).map (fun v => { e with value := v })

inductive Blob where
  | entry : CacheHandlerValue → Blob
  | corrupt : Blob
deriving DecidableEq

inductive CacheKind where
  | fetch
  | route
deriving DecidableEq

structure BuildMeta where
  buildId : String
  timestamp : Nat
deriving DecidableEq

abbrev TagsMapping := List (String × List String)

/-- The durable state one cache handler instance works on: the two blob
partitions (directory / bucket-prefix contents, keyed by blob name), the
tag index blob `tags/tags.json` (an absent or unreadable index reads as
the empty mapping) and the `build-meta.json` singleton. -/
structure Store where
  fetchCache : List (String × Blob)
  routeCache : List (String × Blob)
  tagsMap : TagsMapping
  buildMeta : Option BuildMeta
deriving DecidableEq

def partitionOf (st : Store) : CacheKind → List (String × Blob)
  | .fetch => st.fetchCache
  | .route => st.routeCache

def setPartition (st : Store) : CacheKind → List (String × Blob) → Store
  | .fetch, l => { st with fetchCache := l }
  | .route, l => { st with routeCache := l }

/-- A fresh store: empty partitions, the tag index initialized to the
empty mapping (`initializeTagsMapping`), no build metadata yet. -/
def initialStore : Store := ⟨[], [], [], none⟩

/-- The `ctx` argument of `get` as `determineCacheType` inspects it: which
of the three remote-fetch marker fields are present, and the value of
`fetchCache` when present. -/
structure GetCtx where
  fetchCache : Option Bool := none
  fetchUrl : Option String := none
  fetchIdx : Option Nat := none
deriving DecidableEq

namespace FileCacheHandler

/-- Lines 255–260: `cacheKey.replace(/[^a-zA-Z0-9-]/g, '_')` plus the
`.json` suffix gives the blob name inside the partition directory. -/
def sanitizeKey (k : String) : String :=
  String.mk (k.toList.map (fun c => if c.isAlphanum ∨ c = '-' then c else '_'))

def cacheFileName (k : String) : String := sanitizeKey k ++ ".json"

/-- Lines 262–273: read the blob, `JSON.parse` it, deserialize; every
failure (missing file, unparseable contents, throwing decode) is caught
and becomes `null`. The trailing `|| null` keeps a truthy decoded entry
as is. -/
def readCacheEntry (st : Store) (cacheKey : String) (cacheType : CacheKind) :
    Option CacheHandlerValue :=
  match alistLookup (cacheFileName cacheKey) (partitionOf st cacheType) with
  | none => none
  | some .corrupt => none
  | some (.entry e) => (deserializeFromStorage e).toOption

/-- Lines 275–285: serialize the entry, `JSON.stringify` it and write the
blob; the caught write failure (`writeOk = false`) leaves the store
unchanged and is swallowed. The stored blob is what the next `JSON.parse`
will return. -/
def writeCacheEntry (st : Store) (cacheKey : String) (e : CacheHandlerValue)
    (cacheType : CacheKind) (writeOk : Bool) : Store :=
  if writeOk then
    setPartition st cacheType
      (alistPut (cacheFileName cacheKey)
        (.entry (jsonRTEntry (serializeForStorage e)))
        (partitionOf st cacheType))
  else st

/-- Lines 287–297: `unlink` inside a try/catch that swallows every error
(ENOENT silently, anything else logged) — the function never throws, so
it always returns `.ok`. -/
def deleteCacheEntry (st : Store) (cacheKey : String) (cacheType : CacheKind) :
    Except Unit Store :=
  .ok (setPartition st cacheType
    (alistRemove (cacheFileName cacheKey) (partitionOf st cacheType)))

/-- Lines 442–462. -/
def determineCacheType : Option GetCtx → CacheKind
  | none => .route
  | some ctx =>
      if ctx.fetchCache = some true then .fetch
      else if ctx.fetchUrl.isSome then .fetch
      else if ctx.fetchIdx.isSome then .fetch
      else .route

/-- Lines 414–440: pick the partition from the context and read it; the
surrounding try/catch only re-covers failures `readCacheEntry` already
turned into `null`. -/
def get (st : Store) (cacheKey : String) (ctx : Option GetCtx) :
    Option CacheHandlerValue :=
  readCacheEntry st cacheKey (determineCacheType ctx)

/-- Line 473: the partition a value is stored into is derived from its
`kind` marker field. -/
def kindIsFetch : JsVal → Bool
  | .obj fs => decide (alistLookup "kind" fs = some (JsVal.str "FETCH"))
  | _ => false

def cacheTypeOfValue (v : JsVal) : CacheKind :=
  if kindIsFetch v then .fetch else .route

/-- One step of `updateTagsMapping`'s add loop (lines 218–227): create the
tag's list if absent (a new JS property is appended last), then push the
key if it is not already present. -/
def addKeyToTag (cacheKey : String) (m : TagsMapping) (tag : String) :
    TagsMapping :=
  match alistLookup tag m with
  | none => m ++ [(tag, [cacheKey])]
  | some ks => if cacheKey ∈ ks then m else alistMapSet tag (ks ++ [cacheKey]) m

/-- Lines 204–234 with `isDelete = false`: add the cache key under each
tag of the list. -/
def updateTagsMapping (cacheKey : String) (tags : List String)
    (m : TagsMapping) : TagsMapping :=
  tags.foldl (addKeyToTag cacheKey) m

/-- Lines 204–234 with `isDelete = true`: drop the cache key from every
tag's list and delete tags whose list becomes empty. -/
def updateTagsMappingDeleteKey (cacheKey : String) (m : TagsMapping) :
    TagsMapping :=
  (m.map (fun p => (p.1, p.2.filter (fun k => k ≠ cacheKey)))).filter
    (fun p => !p.2.isEmpty)

/-- Lines 236–253: drop every deleted key from every tag's list in one
pass and delete tags whose list becomes empty. -/
def updateTagsMappingBulkDelete (cacheKeysToDelete : List String)
    (m : TagsMapping) : TagsMapping :=
  (m.map (fun p => (p.1, p.2.filter (fun k => !cacheKeysToDelete.contains k)))).filter
    (fun p => !p.2.isEmpty)

/-- Lines 464–503: build the entry with `lastModified = Date.now()` (the
`now` argument models the store's clock; the caller's context carries no
timestamp), write it into the partition derived from the value's kind,
then update the tag index only when tags were supplied. -/
def set (st : Store) (cacheKey : String) (incrementalCacheValue : JsVal)
    (tags : List String) (now : Nat) (writeOk : Bool) : Store :=
  let cacheType := cacheTypeOfValue incrementalCacheValue
  let cacheHandlerValue : CacheHandlerValue :=
    ⟨incrementalCacheValue, now, tags⟩
  let st1 := writeCacheEntry st cacheKey cacheHandlerValue cacheType writeOk
  if tags.length > 0 then
    { st1 with tagsMap := updateTagsMapping cacheKey tags st1.tagsMap }
  else st1

/-- The body of `revalidateTag`'s per-key loop (lines 527–555): try the
fetch partition; only if that *throws* fall back to the route partition;
count the key as deleted when either call returned. Since
`deleteCacheEntry` never throws, the first attempt always succeeds and
the route branch mirrors the source's unreachable catch. -/
def revalStep (acc : Store × Nat × List String) (cacheKey : String) :
    Store × Nat × List String :=
  match deleteCacheEntry acc.1 cacheKey .fetch with
  | .ok st2 => (st2, acc.2.1 + 1, acc.2.2 ++ [cacheKey])
  | .error _ =>
      match deleteCacheEntry acc.1 cacheKey .route with
      | .ok st2 => (st2, acc.2.1 + 1, acc.2.2 ++ [cacheKey])
      | .error _ => acc

/-- Lines 505–565 for a single tag (`[tag].flat()` is `[tag]`): look the
tag up in the index, run the deletion loop over its keys, then remove the
deleted keys from the whole index in one bulk rewrite. Returns the store
and the accumulated `deletedCount`. -/
def revalidateTag (st : Store) (tag : String) : Store × Nat :=
  let tagsMapping := st.tagsMap
  let cacheKeysForTag := (alistLookup tag tagsMapping).getD []
  let r := cacheKeysForTag.foldl revalStep (st, 0, [])
  let st2 :=
    if r.2.2.length > 0 then
      { r.1 with tagsMap := updateTagsMappingBulkDelete r.2.2 r.1.tagsMap }
    else r.1
  (st2, r.2.1)

/-- Lines 69–107: compare the persisted build time with the current
server-directory modification time, both truncated to whole minutes; on a
strictly newer minute clear the route partition only (lines 119–153) and
record new metadata; a missing/unreadable metadata file (the catch
branch) just records fresh metadata. -/
def checkBuildInvalidation (st : Store) (currentBuildTime : Nat) : Store :=
  match st.buildMeta with
  | none =>
      { st with
          buildMeta := some ⟨"build-" ++ toString currentBuildTime,
            currentBuildTime⟩ }
  | some buildMeta =>
      if buildMeta.timestamp / 60000 < currentBuildTime / 60000 then
        { st with
            routeCache := [],
            buildMeta := some ⟨"build-" ++ toString currentBuildTime,
              currentBuildTime⟩ }
      else st

/-- Lines 674–728, the module-level full clear the admin DELETE route
imports: unlink every `.json` blob in both partitions (every stored blob
name ends in `.json`), unlink the tag index file, return the total count.
The build metadata lives outside the two directories and survives. -/
def clearSharedCache (st : Store) : Store × Nat :=
  (⟨[], [], [], st.buildMeta⟩,
   st.fetchCache.length + st.routeCache.length)

end FileCacheHandler

/-- src/app/api/cache-stats/route.ts lines 41–64: the DELETE handler calls
the file-backed `clearSharedCache` and reports its count as
`cleared_entries`. -/
def cacheStatsDelete (st : Store) : Store × Nat :=
  FileCacheHandler.clearSharedCache st

namespace GcsCacheHandler

/-- gcs-cache-handler.ts lines 464–491: compare the persisted buildId
with the current one; on any difference clear the route prefix only
(lines 508–520; the edge-cache purge is an external call outside this
model) and write new metadata with the current time; missing metadata
(the catch branch) just records fresh metadata. -/
def checkBuildInvalidation (st : Store) (currentBuildId : String)
    (now : Nat) : Store :=
  match st.buildMeta with
  | none => { st with buildMeta := some ⟨currentBuildId, now⟩ }
  | some buildMeta =>
      if buildMeta.buildId ≠ currentBuildId then
        { st with
            routeCache := [],
            buildMeta := some ⟨currentBuildId, now⟩ }
      else st

/-- `file.name.replace('.json', '')`: blob names are a sanitized key (no
dot can survive sanitization) plus `.json`, so stripping the one
occurrence is stripping the suffix. -/
def stripJsonSuffix (n : String) : String := n.replace ".json" ""

/-- gcs-cache-handler.ts lines 1050–1141: delete every fetch blob; walk
the route blobs, skipping (preserving) those whose cache key is in the
static-route set read from the prerender manifest (`getStaticRoutes`,
lines 1020–1048, modelled as the `staticRoutes` argument) and deleting
the rest; delete the tag index; return the cleared count. -/
def clearSharedCache (st : Store) (staticRoutes : List String) :
    Store × Nat :=
  let filesToDelete :=
    st.routeCache.filter (fun p => !staticRoutes.contains (stripJsonSuffix p.1))
  let routeKept :=
    st.routeCache.filter (fun p => staticRoutes.contains (stripJsonSuffix p.1))
  (⟨[], routeKept, [], st.buildMeta⟩,
   st.fetchCache.length + filesToDelete.length)

end GcsCacheHandler

/-- One `set` call's arguments, for reasoning about sequences of writes. -/
structure SetOp where
  key : String
  value : JsVal
  tags : List String
  now : Nat

/-- Apply a sequence of successful `set` calls to a store. -/
def applySetOps (st : Store) (ops : List SetOp) : Store :=
  ops.foldl (fun s o => FileCacheHandler.set s o.key o.value o.tags o.now true) st

/-- The keys the tag index currently lists under a tag (an absent tag
reads as the empty list, as in `tagsMapping[currentTag] || []`). -/
def keysForTag (m : TagsMapping) (t : String) : List String :=
  (alistLookup t m).getD []

/-- Tag-index states reachable from the freshly initialized empty mapping
by the index's three mutating operations. -/
inductive ReachableTagsMapping : TagsMapping → Prop where
  | init : ReachableTagsMapping []
  | addKeys (m : TagsMapping) (k : String) (tags : List String) :
      ReachableTagsMapping m →
      ReachableTagsMapping (FileCacheHandler.updateTagsMapping k tags m)
  | deleteKey (m : TagsMapping) (k : String) :
      ReachableTagsMapping m →
      ReachableTagsMapping (FileCacheHandler.updateTagsMappingDeleteKey k m)
  | bulkDelete (m : TagsMapping) (ks : List String) :
      ReachableTagsMapping m →
      ReachableTagsMapping (FileCacheHandler.updateTagsMappingBulkDelete ks m)

/-! ### Concrete instances used by counterexamples and witnesses -/

/-- A payload with a byte sequence nested at an unsupported position
(field `html` instead of `body`/`rscData`/`segmentData`). -/
def nestedBufferPayload : JsVal :=
  .obj [("kind", .str "APP_ROUTE"), ("html", .buf [104, 105])]

/-- A FETCH-shaped payload exercising all three supported byte positions. -/
def supportedPayloadExample : JsVal :=
  .obj [("kind", .str "FETCH"), ("body", .buf [104, 101, 108, 108, 111]),
    ("rscData", .buf [255]),
    ("segmentData", .jmap [("a", .buf [0, 10]), ("b", .str "s")]),
    ("x", .num 5)]

/-- Three ROUTE-partition entries; `k1`, `k2` indexed under tag `T` and
`k3` under tag `U` only. -/
def revalScenario : Store :=
  ⟨[],
   [("k1.json", .entry ⟨.str "x", 0, []⟩),
    ("k2.json", .entry ⟨.str "x", 0, []⟩),
    ("k3.json", .entry ⟨.str "x", 0, []⟩)],
   [("T", ["k1", "k2"]), ("U", ["k3"])], none⟩

/-- Persisted build metadata whose minute (1) is not older than the
current server-directory minute of build time 60000 (also 1), although
the identities differ. -/
def staleBuildStore : Store :=
  ⟨[], [("r.json", .entry ⟨.str "x", 0, []⟩)], [],
   some ⟨"build-119999", 119999⟩⟩

/-- One unparseable fetch blob and one parseable blob whose decode throws
(a Buffer envelope with no `data`, making `Buffer.from(undefined)` throw). -/
def badBlobStore : Store :=
  ⟨[("c.json", .corrupt),
    ("e.json", .entry ⟨.obj [("body", .obj [("type", .str "Buffer")])], 0, []⟩)],
   [], [], none⟩

/-- A store whose ROUTE partition holds key `k` while FETCH is empty. -/
def routeOnlyStore : Store :=
  ⟨[], [("k.json", .entry ⟨.str "x", 0, []⟩)], [], none⟩

/-- A store holding one ROUTE entry whose cache key `sk` is a member of
the StaticRouteSet used in the C5 counterexample. -/
def staticRouteStore : Store :=
  ⟨[], [("sk.json", .entry ⟨.str "x", 0, []⟩)], [], none⟩

/-- A `get` context carrying the remote-fetch marker `fetchCache: true`. -/
def fetchCtx : GetCtx := ⟨some true, none, none⟩


theorem charSextet_sextetChar : ∀ n, n < 64 → charSextet (sextetChar n) = n := by
  decide

theorem sextetChar_ne_pad : ∀ n, n < 64 → sextetChar n ≠ '=' := by
  decide

theorem b64decodeChars_encodeChunks :
    ∀ bs : List Nat, (∀ b ∈ bs, b < 256) →
      b64decodeChars (b64encodeChunks bs) = bs
  | [], _ => by simp [b64encodeChunks, b64decodeChars]
  | [a], h => by
      have ha : a < 256 := h a (by simp)
      have h1 : a / 4 < 64 := by omega
      have h2 : a % 4 * 16 < 64 := by omega
      rw [show b64encodeChunks [a] =
        [sextetChar (a / 4), sextetChar (a % 4 * 16), '=', '='] from rfl]
      simp only [b64decodeChars, if_pos rfl, if_true, charSextet_sextetChar _ h1,
        charSextet_sextetChar _ h2, List.cons.injEq, and_true]
      omega
  | [a, b], h => by
      have ha : a < 256 := h a (by simp)
      have hb : b < 256 := h b (by simp)
      have h1 : a / 4 < 64 := by omega
      have h2 : a % 4 * 16 + b / 16 < 64 := by omega
      have h3 : b % 16 * 4 < 64 := by omega
      rw [show b64encodeChunks [a, b] =
        [sextetChar (a / 4), sextetChar (a % 4 * 16 + b / 16),
         sextetChar (b % 16 * 4), '='] from rfl]
      simp only [b64decodeChars, if_neg (sextetChar_ne_pad _ h3), if_pos rfl, if_true,
        charSextet_sextetChar _ h1, charSextet_sextetChar _ h2,
        charSextet_sextetChar _ h3, List.cons.injEq, and_true]
      omega
  | a :: b :: d :: rest, h => by
      have ha : a < 256 := h a (by simp)
      have hb : b < 256 := h b (by simp)
      have hd : d < 256 := h d (by simp)
      have h1 : a / 4 < 64 := by omega
      have h2 : a % 4 * 16 + b / 16 < 64 := by omega
      have h3 : b % 16 * 4 + d / 64 < 64 := by omega
      have h4 : d % 64 < 64 := by omega
      have hrest : ∀ x ∈ rest, x < 256 := fun x hx => h x (by simp [hx])
      rw [show b64encodeChunks (a :: b :: d :: rest) =
        sextetChar (a / 4) :: sextetChar (a % 4 * 16 + b / 16) ::
        sextetChar (b % 16 * 4 + d / 64) :: sextetChar (d % 64) ::
        b64encodeChunks rest from rfl]
      simp only [b64decodeChars, if_neg (sextetChar_ne_pad _ h3),
        if_neg (sextetChar_ne_pad _ h4),
        charSextet_sextetChar _ h1, charSextet_sextetChar _ h2,
        charSextet_sextetChar _ h3, charSextet_sextetChar _ h4,
        b64decodeChars_encodeChunks rest hrest, List.cons.injEq, and_true]
      omega

theorem b64decode_encode (bs : List Nat) (h : ∀ b ∈ bs, b < 256) :
    b64decode (b64encode bs) = bs := by
  have e : (b64encode bs).toList = b64encodeChunks bs := rfl
  rw [b64decode, e, b64decodeChars_encodeChunks bs h]


/-! ### Association-list lemmas -/

theorem alistLookup_cons {α : Type} (k k1 : String) (u : α)
    (rest : List (String × α)) :
    alistLookup k ((k1, u) :: rest) =
      if k1 = k then some u else alistLookup k rest := rfl

theorem alistMapSet_cons {α : Type} (k k1 : String) (v u : α)
    (rest : List (String × α)) :
    alistMapSet k v ((k1, u) :: rest) =
      (if k1 = k then (k, v) else (k1, u)) :: alistMapSet k v rest := by
  by_cases h : k1 = k <;> simp [alistMapSet, h]

theorem alistLookup_mapSet {α : Type} (k k2 : String) (v : α)
    (l : List (String × α)) :
    alistLookup k (alistMapSet k2 v l) =
      if k2 = k then (alistLookup k l).map (fun _ => v)
      else alistLookup k l := by
  induction l with
  | nil =>
      by_cases h : k2 = k <;> simp [alistMapSet, alistLookup, h]
  | cons p rest ih =>
      obtain ⟨k1, u⟩ := p
      by_cases h1 : k1 = k2 <;> by_cases h2 : k1 = k <;>
        by_cases h3 : k2 = k <;>
        simp_all [alistMapSet_cons, alistLookup_cons]

theorem alistLookup_mapSet_ne {α : Type} (k k2 : String) (v : α)
    (l : List (String × α)) (h : k2 ≠ k) :
    alistLookup k (alistMapSet k2 v l) = alistLookup k l := by
  rw [alistLookup_mapSet, if_neg h]

theorem alistLookup_mapSet_self {α : Type} (k : String) (v : α)
    (l : List (String × α)) :
    alistLookup k (alistMapSet k v l) =
      (alistLookup k l).map (fun _ => v) := by
  rw [alistLookup_mapSet, if_pos rfl]

theorem alistMapSet_mapSet_self {α : Type} (k : String) (v w : α)
    (l : List (String × α)) :
    alistMapSet k v (alistMapSet k w l) = alistMapSet k v l := by
  induction l with
  | nil => rfl
  | cons p rest ih =>
      obtain ⟨k1, u⟩ := p
      by_cases h1 : k1 = k <;>
        simp_all [alistMapSet_cons]

theorem alistMapSet_comm {α : Type} (k k2 : String) (v v2 : α)
    (l : List (String × α)) (h : k ≠ k2) :
    alistMapSet k v (alistMapSet k2 v2 l) =
      alistMapSet k2 v2 (alistMapSet k v l) := by
  induction l with
  | nil => rfl
  | cons p rest ih =>
      obtain ⟨k1, u⟩ := p
      by_cases h1 : k1 = k2 <;> by_cases h2 : k1 = k <;>
        simp_all [alistMapSet_cons]

theorem keys_alistMapSet {α : Type} (k : String) (v : α)
    (l : List (String × α)) :
    (alistMapSet k v l).map Prod.fst = l.map Prod.fst := by
  induction l with
  | nil => rfl
  | cons p rest ih =>
      obtain ⟨k1, u⟩ := p
      rw [alistMapSet_cons]
      by_cases h1 : k1 = k
      · rw [if_pos h1]
        simpa [h1] using ih
      · rw [if_neg h1]
        simpa using ih

theorem alistLookup_eq_of_mem {α : Type} (l : List (String × α))
    (k : String) (v : α) (hn : keysNodup l) (hm : (k, v) ∈ l) :
    alistLookup k l = some v := by
  induction l with
  | nil => simp at hm
  | cons p rest ih =>
      obtain ⟨k1, u⟩ := p
      simp only [keysNodup, List.map_cons, List.nodup_cons] at hn
      rcases List.mem_cons.mp hm with h | h
      · injection h with h1 h2
        subst h1
        subst h2
        rw [alistLookup_cons, if_pos rfl]
      · have hk : k1 ≠ k := by
          intro he
          exact hn.1 (he ▸ List.mem_map.mpr ⟨(k, v), h, rfl⟩)
        rw [alistLookup_cons, if_neg hk, ih hn.2 h]

theorem alistMapSet_of_keys_not_mem {α : Type} (l : List (String × α))
    (k : String) (v : α) (h : k ∉ l.map Prod.fst) :
    alistMapSet k v l = l := by
  induction l with
  | nil => rfl
  | cons p rest ih =>
      obtain ⟨k1, u⟩ := p
      simp only [List.map_cons, List.mem_cons, not_or] at h
      rw [alistMapSet_cons, if_neg (fun he => h.1 he.symm), ih h.2]

theorem alistMapSet_eq_self {α : Type} (l : List (String × α))
    (k : String) (v : α) (hn : keysNodup l) (hl : alistLookup k l = some v) :
    alistMapSet k v l = l := by
  induction l with
  | nil => rfl
  | cons p rest ih =>
      obtain ⟨k1, u⟩ := p
      simp only [keysNodup, List.map_cons, List.nodup_cons] at hn
      by_cases h1 : k1 = k
      · subst h1
        rw [alistLookup_cons, if_pos rfl, Option.some.injEq] at hl
        subst hl
        rw [alistMapSet_cons, if_pos rfl,
          alistMapSet_of_keys_not_mem rest k1 u hn.1]
      · rw [alistLookup_cons, if_neg h1] at hl
        rw [alistMapSet_cons, if_neg h1, ih hn.2 hl]

theorem mem_alistMapSet {α : Type} (l : List (String × α))
    (k : String) (v : α) (p : String × α) (hp : p ∈ alistMapSet k v l) :
    (p.1 = k ∧ p.2 = v) ∨ (p.1 ≠ k ∧ p ∈ l) := by
  obtain ⟨q, hq, he⟩ := List.mem_map.mp hp
  by_cases h1 : q.1 = k
  · left
    rw [if_pos h1] at he
    simp [← he]
  · right
    rw [if_neg h1] at he
    subst he
    exact ⟨h1, hq⟩

theorem alistLookup_append_single {α : Type} (l : List (String × α))
    (k k2 : String) (v : α) :
    alistLookup k (l ++ [(k2, v)]) =
      match alistLookup k l with
      | some w => some w
      | none => if k2 = k then some v else none := by
  induction l with
  | nil => simp [alistLookup]
  | cons p rest ih =>
      obtain ⟨k1, u⟩ := p
      rw [List.cons_append, alistLookup_cons, alistLookup_cons]
      by_cases h1 : k1 = k
      · rw [if_pos h1, if_pos h1]
      · rw [if_neg h1, if_neg h1, ih]

theorem alistLookup_put_self {α : Type} (k : String) (v : α)
    (l : List (String × α)) :
    alistLookup k (alistPut k v l) = some v := by
  rw [alistPut]
  split
  · next h =>
      rw [alistLookup_mapSet_self]
      obtain ⟨w, hw⟩ := Option.isSome_iff_exists.mp h
      simp [hw]
  · next h =>
      rw [alistLookup_append_single]
      have he : alistLookup k l = none := Option.not_isSome_iff_eq_none.mp h
      simp [he]

/-! ### The JSON medium is lossless on Buffer-free, Map-free values -/

mutual

theorem jsonRT_safe : ∀ v, jsonSafe v = true → jsonRT v = v
  | .null, _ => by simp [jsonRT]
  | .bool _, _ => by simp [jsonRT]
  | .num _, _ => by simp [jsonRT]
  | .str _, _ => by simp [jsonRT]
  | .buf _, h => by simp [jsonSafe] at h
  | .arr xs, h => by
      simp only [jsonRT]
      exact congrArg JsVal.arr (jsonRTList_safe xs (by simpa [jsonSafe] using h))
  | .obj fs, h => by
      simp only [jsonRT]
      exact congrArg JsVal.obj
        (jsonRTFields_safe fs (by simpa [jsonSafe] using h))
  | .jmap _, h => by simp [jsonSafe] at h

theorem jsonRTList_safe : ∀ xs, jsonSafeList xs = true → jsonRTList xs = xs
  | [], _ => by simp [jsonRTList]
  | v :: vs, h => by
      simp only [jsonSafeList, Bool.and_eq_true] at h
      simp only [jsonRTList]
      rw [jsonRT_safe v h.1, jsonRTList_safe vs h.2]

theorem jsonRTFields_safe : ∀ fs, jsonSafeFields fs = true → jsonRTFields fs = fs
  | [], _ => by simp [jsonRTFields]
  | (k, v) :: fs, h => by
      simp only [jsonSafeFields, Bool.and_eq_true] at h
      simp only [jsonRTFields]
      rw [jsonRT_safe v h.1, jsonRTFields_safe fs h.2]

end

theorem jsonSafeFields_iff (fs : Fields) :
    jsonSafeFields fs = true ↔ ∀ p ∈ fs, jsonSafe p.2 = true := by
  induction fs with
  | nil => simp [jsonSafeFields]
  | cons p rest ih =>
      obtain ⟨k, v⟩ := p
      simp [jsonSafeFields, Bool.and_eq_true, ih]

theorem bytesOk_iff (bs : List Nat) :
    bytesOk bs = true ↔ ∀ b ∈ bs, b < 256 := by
  simp [bytesOk, List.all_eq_true]

theorem jsonSafe_bufEnvelope (bs : List Nat) :
    jsonSafe (bufEnvelope bs) = true := by
  simp [bufEnvelope, jsonSafe, jsonSafeFields]

theorem jsonSafe_serializeSegEntry (w : JsVal) (h : segEntryOk w = true) :
    jsonSafe (serializeSegEntry w) = true := by
  cases w <;>
    simp_all [serializeSegEntry, segEntryOk, jsonSafe_bufEnvelope,
      Bool.and_eq_true]

theorem jsonSafe_mapEnvelope (es : Fields)
    (h : ∀ p ∈ es, segEntryOk p.2 = true) :
    jsonSafe (mapEnvelope es) = true := by
  simp only [mapEnvelope, jsonSafe, jsonSafeFields, Bool.and_eq_true,
    and_true, true_and]
  rw [jsonSafeFields_iff]
  intro p hp
  obtain ⟨q, hq, he⟩ := List.mem_map.mp hp
  rw [← he]
  exact jsonSafe_serializeSegEntry q.2 (h q hq)

/-! ### Serialization step characterizations -/

theorem serializeBufField_buf (name : String) (fs : Fields) (bs : List Nat)
    (heq : alistLookup name fs = some (.buf bs)) :
    serializeBufField name fs = alistMapSet name (bufEnvelope bs) fs := by
  rw [serializeBufField, heq]

theorem serializeBufField_nonbuf (name : String) (fs : Fields)
    (h : ∀ bs, alistLookup name fs ≠ some (.buf bs)) :
    serializeBufField name fs = fs := by
  rw [serializeBufField]
  split
  · next bs heq => exact absurd heq (h bs)
  · rfl

theorem serializeSegField_jmap (fs : Fields) (es : Fields)
    (heq : alistLookup "segmentData" fs = some (.jmap es)) :
    serializeSegField fs = alistMapSet "segmentData" (mapEnvelope es) fs := by
  rw [serializeSegField, heq]

theorem serializeSegField_nonmap (fs : Fields)
    (h : ∀ es, alistLookup "segmentData" fs ≠ some (.jmap es)) :
    serializeSegField fs = fs := by
  rw [serializeSegField]
  split
  · next es heq => exact absurd heq (h es)
  · rfl

theorem lookup_serializeBufField_ne (name k : String) (fs : Fields)
    (h : k ≠ name) :
    alistLookup k (serializeBufField name fs) = alistLookup k fs := by
  rw [serializeBufField]
  split
  · exact alistLookup_mapSet_ne _ _ _ _ (fun he => h he.symm)
  · rfl

theorem lookup_serializeSegField_ne (k : String) (fs : Fields)
    (h : k ≠ "segmentData") :
    alistLookup k (serializeSegField fs) = alistLookup k fs := by
  rw [serializeSegField]
  split
  · exact alistLookup_mapSet_ne _ _ _ _ (fun he => h he.symm)
  · rfl

theorem keys_serializeBufField (name : String) (fs : Fields) :
    (serializeBufField name fs).map Prod.fst = fs.map Prod.fst := by
  rw [serializeBufField]
  split
  · exact keys_alistMapSet _ _ _
  · rfl

theorem keys_serializeSegField (fs : Fields) :
    (serializeSegField fs).map Prod.fst = fs.map Prod.fst := by
  rw [serializeSegField]
  split
  · exact keys_alistMapSet _ _ _
  · rfl

theorem serializeBufField_mapSet (name k : String) (v : JsVal) (fs : Fields)
    (h : k ≠ name) :
    serializeBufField name (alistMapSet k v fs) =
      alistMapSet k v (serializeBufField name fs) := by
  rw [serializeBufField, serializeBufField, alistLookup_mapSet_ne _ _ _ _ h]
  split
  · exact alistMapSet_comm _ _ _ _ _ (fun he => h he.symm)
  · rfl

theorem serializeSegField_mapSet (k : String) (v : JsVal) (fs : Fields)
    (h : k ≠ "segmentData") :
    serializeSegField (alistMapSet k v fs) =
      alistMapSet k v (serializeSegField fs) := by
  rw [serializeSegField, serializeSegField, alistLookup_mapSet_ne _ _ _ _ h]
  split
  · exact alistMapSet_comm _ _ _ _ _ (fun he => h he.symm)
  · rfl

/-! ### Deserialization step characterizations -/

theorem deserializeBufField_absent (name : String) (fs : Fields)
    (heq : alistLookup name fs = none) :
    deserializeBufField name fs = .ok fs := by
  unfold deserializeBufField
  rw [heq]

theorem deserializeBufField_envelope (name : String) (fs : Fields)
    (bs : List Nat) (hb : bytesOk bs = true)
    (heq : alistLookup name fs = some (bufEnvelope bs)) :
    deserializeBufField name fs = .ok (alistMapSet name (.buf bs) fs) := by
  rw [bufEnvelope] at heq
  unfold deserializeBufField
  rw [heq]
  simp [alistLookup, bufferFromJs, Except.map,
    b64decode_encode bs ((bytesOk_iff bs).mp hb)]

theorem deserializeBufField_plain (name : String) (fs : Fields) (w : JsVal)
    (heq : alistLookup name fs = some w) (hw : notBufTagged w = true)
    (hnb : ∀ bs, w ≠ .buf bs) :
    deserializeBufField name fs = .ok fs := by
  unfold deserializeBufField
  rw [heq]
  cases w with
  | obj bfs =>
      simp only [notBufTagged, decide_eq_true_eq] at hw
      simp [if_neg hw]
  | null => rfl
  | bool b => rfl
  | num n => rfl
  | str s => rfl
  | buf bs => exact absurd rfl (hnb bs)
  | arr xs => rfl
  | jmap es => rfl

theorem deserializeSegField_absent (fs : Fields)
    (heq : alistLookup "segmentData" fs = none) :
    deserializeSegField fs = .ok fs := by
  unfold deserializeSegField
  rw [heq]

theorem deserializeSegField_plain (fs : Fields) (w : JsVal)
    (heq : alistLookup "segmentData" fs = some w)
    (hw : notMapTagged w = true) :
    deserializeSegField fs = .ok fs := by
  unfold deserializeSegField
  rw [heq]
  cases w with
  | obj sfs =>
      simp only [notMapTagged, decide_eq_true_eq] at hw
      simp [if_neg hw]
  | null => rfl
  | bool b => rfl
  | num n => rfl
  | str s => rfl
  | buf bs => rfl
  | arr xs => rfl
  | jmap es => rfl

theorem deserializeSegEntries_serialized (es : Fields)
    (h : ∀ p ∈ es, segEntryOk p.2 = true) :
    deserializeSegEntries (es.map (fun p => (p.1, serializeSegEntry p.2))) =
      .ok es := by
  induction es with
  | nil => rfl
  | cons p rest ih =>
      obtain ⟨k, w⟩ := p
      have hw : segEntryOk w = true := h (k, w) (List.mem_cons_self _ _)
      have hrest : ∀ q ∈ rest, segEntryOk q.2 = true :=
        fun q hq => h q (List.mem_cons_of_mem _ hq)
      have hent : deserializeSegEntry (serializeSegEntry w) = .ok w := by
        cases w with
        | buf bs =>
            have hb : bytesOk bs = true := by simpa [segEntryOk] using hw
            simp [serializeSegEntry, deserializeSegEntry, bufEnvelope,
              alistLookup, bufferFromJs, Except.map,
              b64decode_encode bs ((bytesOk_iff bs).mp hb)]
        | obj ofs =>
            have hnt : notBufTagged (JsVal.obj ofs) = true := by
              simp only [segEntryOk, Bool.and_eq_true] at hw
              exact hw.2
            simp only [notBufTagged, decide_eq_true_eq] at hnt
            simp [serializeSegEntry, deserializeSegEntry, if_neg hnt]
        | null => rfl
        | bool b => rfl
        | num n => rfl
        | str s => rfl
        | arr xs => rfl
        | jmap es2 => rfl
      simp only [List.map_cons, deserializeSegEntries, hent, ih hrest]
      rfl

theorem deserializeSegField_envelope (fs : Fields) (es : Fields)
    (h : ∀ p ∈ es, segEntryOk p.2 = true)
    (heq : alistLookup "segmentData" fs = some (mapEnvelope es)) :
    deserializeSegField fs = .ok (alistMapSet "segmentData" (.jmap es) fs) := by
  rw [mapEnvelope] at heq
  unfold deserializeSegField
  rw [heq]
  simp [alistLookup, deserializeSegEntries_serialized es h, Except.map]

/-! ### Case analyses of the supported-field predicates -/

theorem bufFieldOk_plain (w : JsVal) (hb : ∀ bs, w ≠ JsVal.buf bs)
    (h : bufFieldOk (some w) = true) :
    jsonSafe w = true ∧ notBufTagged w = true := by
  cases w with
  | buf bs => exact absurd rfl (hb bs)
  | null => simpa [bufFieldOk, Bool.and_eq_true] using h
  | bool b => simpa [bufFieldOk, Bool.and_eq_true] using h
  | num n => simpa [bufFieldOk, Bool.and_eq_true] using h
  | str s => simpa [bufFieldOk, Bool.and_eq_true] using h
  | arr xs => simpa [bufFieldOk, Bool.and_eq_true] using h
  | obj ofs => simpa [bufFieldOk, Bool.and_eq_true] using h
  | jmap es => simpa [bufFieldOk, Bool.and_eq_true] using h

theorem segFieldOk_plain (w : JsVal) (hm : ∀ es, w ≠ JsVal.jmap es)
    (h : segFieldOk (some w) = true) :
    jsonSafe w = true ∧ notMapTagged w = true := by
  cases w with
  | jmap es => exact absurd rfl (hm es)
  | null => simpa [segFieldOk, Bool.and_eq_true] using h
  | bool b => simpa [segFieldOk, Bool.and_eq_true] using h
  | num n => simpa [segFieldOk, Bool.and_eq_true] using h
  | str s => simpa [segFieldOk, Bool.and_eq_true] using h
  | arr xs => simpa [segFieldOk, Bool.and_eq_true] using h
  | obj ofs => simpa [segFieldOk, Bool.and_eq_true] using h
  | buf bs => simpa [segFieldOk, Bool.and_eq_true] using h

theorem bufFieldOk_cases (o : Option JsVal) (h : bufFieldOk o = true) :
    o = none ∨ (∃ bs, o = some (.buf bs) ∧ bytesOk bs = true) ∨
      (∃ w, o = some w ∧ (∀ bs, w ≠ JsVal.buf bs) ∧
        (jsonSafe w = true ∧ notBufTagged w = true)) := by
  rcases o with _ | w
  · exact Or.inl rfl
  · by_cases hb : ∃ bs, w = JsVal.buf bs
    · obtain ⟨bs, rfl⟩ := hb
      exact Or.inr (Or.inl ⟨bs, rfl, by simpa [bufFieldOk] using h⟩)
    · push_neg at hb
      exact Or.inr (Or.inr ⟨w, rfl, fun bs he => hb bs he,
        bufFieldOk_plain w (fun bs he => hb bs he) h⟩)

theorem segFieldOk_cases (o : Option JsVal) (h : segFieldOk o = true) :
    o = none ∨
      (∃ es, o = some (.jmap es) ∧ ∀ p ∈ es, segEntryOk p.2 = true) ∨
      (∃ w, o = some w ∧ (∀ es, w ≠ JsVal.jmap es) ∧
        (jsonSafe w = true ∧ notMapTagged w = true)) := by
  rcases o with _ | w
  · exact Or.inl rfl
  · by_cases hm : ∃ es, w = JsVal.jmap es
    · obtain ⟨es, rfl⟩ := hm
      refine Or.inr (Or.inl ⟨es, rfl, ?_⟩)
      rw [← List.all_eq_true]
      simpa [segFieldOk] using h
    · push_neg at hm
      exact Or.inr (Or.inr ⟨w, rfl, fun es he => hm es he,
        segFieldOk_plain w (fun es he => hm es he) h⟩)

/-! ### One field serializes then deserializes to itself -/

theorem deserializeBufField_serializeBufField (name : String) (fs : Fields)
    (hn : keysNodup fs) (h : bufFieldOk (alistLookup name fs) = true) :
    deserializeBufField name (serializeBufField name fs) = .ok fs := by
  rcases bufFieldOk_cases _ h with h0 | ⟨bs, h0, hb⟩ | ⟨w, h0, hnb, hw⟩
  · rw [serializeBufField_nonbuf name fs (by simp [h0])]
    exact deserializeBufField_absent name fs h0
  · rw [serializeBufField_buf name fs bs h0]
    have hl : alistLookup name (alistMapSet name (bufEnvelope bs) fs) =
        some (bufEnvelope bs) := by
      rw [alistLookup_mapSet_self, h0]
      rfl
    rw [deserializeBufField_envelope name _ bs hb hl,
      alistMapSet_mapSet_self, alistMapSet_eq_self fs name _ hn h0]
  · rw [serializeBufField_nonbuf name fs (by
      rw [h0]
      intro bs he
      injection he with he2
      exact hnb bs he2)]
    exact deserializeBufField_plain name fs w h0 hw.2 hnb

theorem deserializeSegField_serializeSegField (fs : Fields)
    (hn : keysNodup fs)
    (h : segFieldOk (alistLookup "segmentData" fs) = true) :
    deserializeSegField (serializeSegField fs) = .ok fs := by
  rcases segFieldOk_cases _ h with h0 | ⟨es, h0, hall⟩ | ⟨w, h0, hnm, hw⟩
  · rw [serializeSegField_nonmap fs (by simp [h0])]
    exact deserializeSegField_absent fs h0
  · rw [serializeSegField_jmap fs es h0]
    have hl : alistLookup "segmentData"
        (alistMapSet "segmentData" (mapEnvelope es) fs) =
        some (mapEnvelope es) := by
      rw [alistLookup_mapSet_self, h0]
      rfl
    rw [deserializeSegField_envelope _ es hall hl,
      alistMapSet_mapSet_self, alistMapSet_eq_self fs _ _ hn h0]
  · rw [serializeSegField_nonmap fs (by
      rw [h0]
      intro es he
      injection he with he2
      exact hnm es he2)]
    exact deserializeSegField_plain fs w h0 hw.2

/-! ### Deserializing one field commutes with serializing another -/

theorem deserializeBufField_serializeSegField (name : String) (fs : Fields)
    (h : name ≠ "segmentData") :
    deserializeBufField name (serializeSegField fs) =
      (deserializeBufField name fs).map serializeSegField := by
  unfold deserializeBufField
  rw [lookup_serializeSegField_ne name fs h]
  split
  · split
    · cases hbf : bufferFromJs (alistLookup "data" _) with
      | ok bs =>
          simp [hbf, Except.map, serializeSegField_mapSet name _ _ h]
      | error e => simp [hbf, Except.map]
    · simp [Except.map]
  · simp [Except.map]

theorem deserializeBufField_serializeBufField_comm (name name2 : String)
    (fs : Fields) (h : name ≠ name2) :
    deserializeBufField name (serializeBufField name2 fs) =
      (deserializeBufField name fs).map (serializeBufField name2) := by
  unfold deserializeBufField
  rw [lookup_serializeBufField_ne name2 name fs h]
  split
  · split
    · cases hbf : bufferFromJs (alistLookup "data" _) with
      | ok bs =>
          simp [hbf, Except.map, serializeBufField_mapSet name2 name _ _ h]
      | error e => simp [hbf, Except.map]
    · simp [Except.map]
  · simp [Except.map]

/-! ### Values of a serialized field list are JSON-safe -/

theorem mem_serializeBufField (name : String) (fs : Fields)
    (p : String × JsVal) (hn : keysNodup fs)
    (hp : p ∈ serializeBufField name fs) :
    (∃ bs, p.2 = bufEnvelope bs) ∨
      (p ∈ fs ∧ (p.1 = name → ∀ bs, p.2 ≠ JsVal.buf bs)) := by
  by_cases hb : ∃ bs, alistLookup name fs = some (JsVal.buf bs)
  · obtain ⟨bs, hbs⟩ := hb
    rw [serializeBufField_buf name fs bs hbs] at hp
    rcases mem_alistMapSet _ _ _ _ hp with ⟨h1, h2⟩ | ⟨h1, h2⟩
    · exact Or.inl ⟨bs, h2⟩
    · exact Or.inr ⟨h2, fun he => absurd he h1⟩
  · push_neg at hb
    rw [serializeBufField_nonbuf name fs hb] at hp
    refine Or.inr ⟨hp, fun he bs hbuf => ?_⟩
    refine hb bs ?_
    have hm : (name, JsVal.buf bs) ∈ fs := by
      have he2 : p = (name, JsVal.buf bs) := Prod.ext he hbuf
      rwa [he2] at hp
    exact alistLookup_eq_of_mem fs name _ hn hm

theorem mem_serializeSegField (fs : Fields) (p : String × JsVal)
    (hn : keysNodup fs) (hp : p ∈ serializeSegField fs) :
    (∃ es, p.2 = mapEnvelope es ∧
      alistLookup "segmentData" fs = some (.jmap es)) ∨
      (p ∈ fs ∧ (p.1 = "segmentData" → ∀ es, p.2 ≠ JsVal.jmap es)) := by
  by_cases hb : ∃ es, alistLookup "segmentData" fs = some (JsVal.jmap es)
  · obtain ⟨es, hes⟩ := hb
    rw [serializeSegField_jmap fs es hes] at hp
    rcases mem_alistMapSet _ _ _ _ hp with ⟨h1, h2⟩ | ⟨h1, h2⟩
    · exact Or.inl ⟨es, h2, hes⟩
    · exact Or.inr ⟨h2, fun he => absurd he h1⟩
  · push_neg at hb
    rw [serializeSegField_nonmap fs hb] at hp
    refine Or.inr ⟨hp, fun he es hmv => ?_⟩
    refine hb es ?_
    have hm : ("segmentData", JsVal.jmap es) ∈ fs := by
      have he2 : p = ("segmentData", JsVal.jmap es) := Prod.ext he hmv
      rwa [he2] at hp
    exact alistLookup_eq_of_mem fs "segmentData" _ hn hm

theorem serializedFields_safe (fs : Fields) (hn : keysNodup fs)
    (hbody : bufFieldOk (alistLookup "body" fs) = true)
    (hrsc : bufFieldOk (alistLookup "rscData" fs) = true)
    (hseg : segFieldOk (alistLookup "segmentData" fs) = true)
    (hoth : ∀ p ∈ fs, p.1 ≠ "body" → p.1 ≠ "rscData" →
      p.1 ≠ "segmentData" → jsonSafe p.2 = true) :
    jsonSafeFields (serializeSegField (serializeBufField "rscData"
      (serializeBufField "body" fs))) = true := by
  have hn1 : keysNodup (serializeBufField "body" fs) := by
    unfold keysNodup
    rw [keys_serializeBufField]
    exact hn
  have hn2 : keysNodup (serializeBufField "rscData"
      (serializeBufField "body" fs)) := by
    unfold keysNodup
    rw [keys_serializeBufField, keys_serializeBufField]
    exact hn
  rw [jsonSafeFields_iff]
  intro p hp
  rcases mem_serializeSegField _ p hn2 hp with ⟨es, he, hlook⟩ | ⟨hp2, hsegf⟩
  · rw [he]
    apply jsonSafe_mapEnvelope
    have hfs : alistLookup "segmentData" fs = some (.jmap es) := by
      rw [← lookup_serializeBufField_ne "body" "segmentData" fs (by decide),
        ← lookup_serializeBufField_ne "rscData" "segmentData" _ (by decide)]
      exact hlook
    rcases segFieldOk_cases _ hseg with h0 | ⟨es2, h0, hall⟩ | ⟨w, h0, hnm, _⟩
    · rw [hfs] at h0
      cases h0
    · rw [hfs] at h0
      injection h0 with h0b
      injection h0b with h0c
      exact h0c ▸ hall
    · rw [hfs] at h0
      injection h0 with h0b
      exact absurd h0b.symm (hnm es)
  · rcases mem_serializeBufField "rscData" _ p hn1 hp2 with ⟨bs, he⟩ |
      ⟨hp3, hrscf⟩
    · rw [he]
      exact jsonSafe_bufEnvelope bs
    · rcases mem_serializeBufField "body" fs p hn hp3 with ⟨bs, he⟩ |
        ⟨hp4, hbodyf⟩
      · rw [he]
        exact jsonSafe_bufEnvelope bs
      · have hmem : (p.1, p.2) ∈ fs := by simpa using hp4
        by_cases e1 : p.1 = "body"
        · have hl : alistLookup "body" fs = some p.2 := by
            rw [← e1]
            exact alistLookup_eq_of_mem fs p.1 p.2 hn hmem
          rw [hl] at hbody
          exact (bufFieldOk_plain p.2 (hbodyf e1) hbody).1
        · by_cases e2 : p.1 = "rscData"
          · have hl : alistLookup "rscData" fs = some p.2 := by
              rw [← e2]
              exact alistLookup_eq_of_mem fs p.1 p.2 hn hmem
            rw [hl] at hrsc
            exact (bufFieldOk_plain p.2 (hrscf e2) hrsc).1
          · by_cases e3 : p.1 = "segmentData"
            · have hl : alistLookup "segmentData" fs = some p.2 := by
                rw [← e3]
                exact alistLookup_eq_of_mem fs p.1 p.2 hn hmem
              rw [hl] at hseg
              exact (segFieldOk_plain p.2 (hsegf e3) hseg).1
            · exact hoth p hp4 e1 e2 e3

/-- The codec round trip restores every supported payload. -/
theorem codecRoundTrip_supported_aux (v : JsVal)
    (h : supportedValue v = true) : codecRoundTrip v = .ok v := by
  cases v with
  | null => simp [supportedValue] at h
  | bool b => simp [supportedValue] at h
  | num n => simp [supportedValue] at h
  | str s => simp [supportedValue] at h
  | buf bs => simp [supportedValue] at h
  | arr xs => simp [supportedValue] at h
  | jmap es => simp [supportedValue] at h
  | obj fs =>
      simp only [supportedValue, Bool.and_eq_true, decide_eq_true_eq,
        List.all_eq_true] at h
      obtain ⟨⟨⟨⟨hn, hbody⟩, hrsc⟩, hseg⟩, hoth⟩ := h
      have hoth2 : ∀ p ∈ fs, p.1 ≠ "body" → p.1 ≠ "rscData" →
          p.1 ≠ "segmentData" → jsonSafe p.2 = true := by
        intro p hp e1 e2 e3
        have := hoth p hp
        simpa [e1, e2, e3] using this
      have hsv : serializeValue (.obj fs) =
          .obj (serializeSegField (serializeBufField "rscData"
            (serializeBufField "body" fs))) := by
        simp [serializeValue, truthyObject, spreadToObj]
      have hsafe := serializedFields_safe fs hn hbody hrsc hseg hoth2
      have hrt : jsonRT (JsVal.obj (serializeSegField
          (serializeBufField "rscData" (serializeBufField "body" fs)))) =
          JsVal.obj (serializeSegField (serializeBufField "rscData"
            (serializeBufField "body" fs))) := by
        simp only [jsonRT]
        exact congrArg JsVal.obj (jsonRTFields_safe _ hsafe)
      have s1 : deserializeBufField "body" (serializeSegField
          (serializeBufField "rscData" (serializeBufField "body" fs))) =
          .ok (serializeSegField (serializeBufField "rscData" fs)) := by
        rw [deserializeBufField_serializeSegField "body" _ (by decide),
          deserializeBufField_serializeBufField_comm "body" "rscData" _
            (by decide),
          deserializeBufField_serializeBufField "body" fs hn hbody]
        simp [Except.map]
      have s2 : deserializeBufField "rscData" (serializeSegField
          (serializeBufField "rscData" fs)) =
          .ok (serializeSegField fs) := by
        rw [deserializeBufField_serializeSegField "rscData" _ (by decide),
          deserializeBufField_serializeBufField "rscData" fs hn hrsc]
        simp [Except.map]
      have s3 : deserializeSegField (serializeSegField fs) = .ok fs :=
        deserializeSegField_serializeSegField fs hn hseg
      rw [codecRoundTrip, hsv, hrt]
      simp [deserializeValue, truthyObject, spreadToObj, s1, s2, s3,
        Bind.bind, Except.bind]

/-- Entry-level round trip: a stored entry with a supported value reads
back exactly as written, tags and timestamp included. -/
theorem storageRoundTrip (e : CacheHandlerValue)
    (h : supportedValue e.value = true) :
    deserializeFromStorage (jsonRTEntry (serializeForStorage e)) = .ok e := by
  have hc := codecRoundTrip_supported_aux e.value h
  rw [codecRoundTrip] at hc
  simp [deserializeFromStorage, jsonRTEntry, serializeForStorage, hc,
    Except.map]

/-! ### Tag index lemmas -/

theorem mem_of_alistLookup {α : Type} (k : String) (l : List (String × α))
    (v : α) (h : alistLookup k l = some v) : (k, v) ∈ l := by
  induction l with
  | nil => cases h
  | cons p rest ih =>
      obtain ⟨k1, u⟩ := p
      rw [alistLookup_cons] at h
      by_cases h1 : k1 = k
      · rw [if_pos h1] at h
        injection h with h2
        exact List.mem_cons.mpr (Or.inl (by rw [h1, h2]))
      · rw [if_neg h1] at h
        exact List.mem_cons.mpr (Or.inr (ih h))

theorem addKeyToTag_none (k0 tag : String) (m : TagsMapping)
    (h : alistLookup tag m = none) :
    FileCacheHandler.addKeyToTag k0 m tag = m ++ [(tag, [k0])] := by
  unfold FileCacheHandler.addKeyToTag
  rw [h]

theorem addKeyToTag_some (k0 tag : String) (m : TagsMapping)
    (ks : List String) (h : alistLookup tag m = some ks) :
    FileCacheHandler.addKeyToTag k0 m tag =
      if k0 ∈ ks then m else alistMapSet tag (ks ++ [k0]) m := by
  unfold FileCacheHandler.addKeyToTag
  rw [h]

theorem keysForTag_addKeyToTag (k k0 tag t : String) (m : TagsMapping) :
    k ∈ keysForTag (FileCacheHandler.addKeyToTag k0 m tag) t ↔
      k ∈ keysForTag m t ∨ (k = k0 ∧ t = tag) := by
  cases h0 : alistLookup tag m with
  | none =>
      rw [addKeyToTag_none k0 tag m h0]
      by_cases ht : t = tag
      · subst ht
        rw [keysForTag, alistLookup_append_single, h0]
        simp [keysForTag, h0]
      · have ht2 : ¬(tag = t) := fun he => ht he.symm
        rw [keysForTag, alistLookup_append_single]
        cases hl : alistLookup t m with
        | some ks => simp [keysForTag, hl, ht]
        | none => simp [keysForTag, hl, ht, ht2]
  | some ks =>
      rw [addKeyToTag_some k0 tag m ks h0]
      by_cases hk : k0 ∈ ks
      · rw [if_pos hk]
        by_cases ht : t = tag
        · subst ht
          rw [keysForTag, h0]
          simp only [Option.getD_some, eq_self_iff_true, and_true]
          constructor
          · exact fun hh => Or.inl hh
          · rintro (hh | hh)
            · exact hh
            · exact hh ▸ hk
        · simp [ht]
      · rw [if_neg hk]
        by_cases ht : t = tag
        · subst ht
          rw [keysForTag, alistLookup_mapSet_self, h0, keysForTag, h0]
          simp [List.mem_append]
        · have ht2 : ¬(tag = t) := fun he => ht he.symm
          rw [keysForTag, alistLookup_mapSet_ne _ _ _ _ ht2]
          simp [keysForTag, ht]

theorem keysForTag_updateTagsMapping (k k0 t : String) (tags : List String)
    (m : TagsMapping) :
    k ∈ keysForTag (FileCacheHandler.updateTagsMapping k0 tags m) t ↔
      k ∈ keysForTag m t ∨ (k = k0 ∧ t ∈ tags) := by
  induction tags generalizing m with
  | nil => simp [FileCacheHandler.updateTagsMapping]
  | cons tg rest ih =>
      rw [show FileCacheHandler.updateTagsMapping k0 (tg :: rest) m =
        FileCacheHandler.updateTagsMapping k0 rest
          (FileCacheHandler.addKeyToTag k0 m tg) from rfl]
      rw [ih, keysForTag_addKeyToTag]
      simp only [List.mem_cons]
      tauto

theorem tagsNodup_addKeyToTag (k0 tag : String) (m : TagsMapping)
    (h : ∀ p ∈ m, p.2.Nodup) :
    ∀ p ∈ FileCacheHandler.addKeyToTag k0 m tag, p.2.Nodup := by
  intro p hp
  cases h0 : alistLookup tag m with
  | none =>
      rw [addKeyToTag_none k0 tag m h0] at hp
      rcases List.mem_append.mp hp with hm | hm
      · exact h p hm
      · simp only [List.mem_singleton] at hm
        rw [hm]
        exact List.nodup_singleton k0
  | some ks =>
      rw [addKeyToTag_some k0 tag m ks h0] at hp
      by_cases hk : k0 ∈ ks
      · rw [if_pos hk] at hp
        exact h p hp
      · rw [if_neg hk] at hp
        rcases mem_alistMapSet _ _ _ _ hp with ⟨h1, h2⟩ | ⟨h1, h2⟩
        · rw [h2]
          have hks : ks.Nodup := h (tag, ks) (mem_of_alistLookup _ _ _ h0)
          simpa [List.nodup_append] using ⟨hks, hk⟩
        · exact h p h2

theorem tagsNodup_updateTagsMapping (k0 : String) (tags : List String)
    (m : TagsMapping) (h : ∀ p ∈ m, p.2.Nodup) :
    ∀ p ∈ FileCacheHandler.updateTagsMapping k0 tags m, p.2.Nodup := by
  induction tags generalizing m with
  | nil => exact h
  | cons tg rest ih =>
      rw [show FileCacheHandler.updateTagsMapping k0 (tg :: rest) m =
        FileCacheHandler.updateTagsMapping k0 rest
          (FileCacheHandler.addKeyToTag k0 m tg) from rfl]
      exact ih _ (tagsNodup_addKeyToTag k0 tg m h)

theorem tagsNodup_deleteKey (k0 : String) (m : TagsMapping)
    (h : ∀ p ∈ m, p.2.Nodup) :
    ∀ p ∈ FileCacheHandler.updateTagsMappingDeleteKey k0 m, p.2.Nodup := by
  intro p hp
  unfold FileCacheHandler.updateTagsMappingDeleteKey at hp
  obtain ⟨q, hq, he⟩ := List.mem_map.mp (List.mem_of_mem_filter hp)
  rw [← he]
  exact List.Nodup.filter _ (h q hq)

theorem tagsNodup_bulkDelete (ks : List String) (m : TagsMapping)
    (h : ∀ p ∈ m, p.2.Nodup) :
    ∀ p ∈ FileCacheHandler.updateTagsMappingBulkDelete ks m, p.2.Nodup := by
  intro p hp
  unfold FileCacheHandler.updateTagsMappingBulkDelete at hp
  obtain ⟨q, hq, he⟩ := List.mem_map.mp (List.mem_of_mem_filter hp)
  rw [← he]
  exact List.Nodup.filter _ (h q hq)

theorem reachable_tagsNodup (m : TagsMapping)
    (h : ReachableTagsMapping m) : ∀ p ∈ m, p.2.Nodup := by
  induction h with
  | init => intro p hp; cases hp
  | addKeys m k tags _ ih => exact tagsNodup_updateTagsMapping k tags m ih
  | deleteKey m k _ ih => exact tagsNodup_deleteKey k m ih
  | bulkDelete m ks _ ih => exact tagsNodup_bulkDelete ks m ih

/-! ### Store-level lemmas -/

theorem tagsMap_writeCacheEntry (st : Store) (k : String)
    (e : CacheHandlerValue) (ty : CacheKind) (ok : Bool) :
    (FileCacheHandler.writeCacheEntry st k e ty ok).tagsMap = st.tagsMap := by
  unfold FileCacheHandler.writeCacheEntry
  cases ok <;> cases ty <;> simp [setPartition]

theorem partitionOf_set (st : Store) (k : String) (v : JsVal)
    (tags : List String) (now : Nat) :
    partitionOf (FileCacheHandler.set st k v tags now true)
      (FileCacheHandler.cacheTypeOfValue v) =
      alistPut (FileCacheHandler.cacheFileName k)
        (.entry (jsonRTEntry (serializeForStorage ⟨v, now, tags⟩)))
        (partitionOf st (FileCacheHandler.cacheTypeOfValue v)) := by
  unfold FileCacheHandler.set FileCacheHandler.writeCacheEntry
  cases FileCacheHandler.cacheTypeOfValue v <;>
    by_cases h : tags.length > 0 <;>
    simp [h, setPartition, partitionOf]

theorem readCacheEntry_absent (st : Store) (k : String) (ty : CacheKind)
    (h : alistLookup (FileCacheHandler.cacheFileName k)
      (partitionOf st ty) = none) :
    FileCacheHandler.readCacheEntry st k ty = none := by
  unfold FileCacheHandler.readCacheEntry
  rw [h]

theorem readCacheEntry_corrupt (st : Store) (k : String) (ty : CacheKind)
    (h : alistLookup (FileCacheHandler.cacheFileName k)
      (partitionOf st ty) = some .corrupt) :
    FileCacheHandler.readCacheEntry st k ty = none := by
  unfold FileCacheHandler.readCacheEntry
  rw [h]

theorem readCacheEntry_entry (st : Store) (k : String) (ty : CacheKind)
    (e : CacheHandlerValue)
    (h : alistLookup (FileCacheHandler.cacheFileName k)
      (partitionOf st ty) = some (.entry e)) :
    FileCacheHandler.readCacheEntry st k ty =
      (deserializeFromStorage e).toOption := by
  unfold FileCacheHandler.readCacheEntry
  rw [h]

theorem readCacheEntry_decode_failure (st : Store) (k : String)
    (ty : CacheKind) (e : CacheHandlerValue)
    (h : alistLookup (FileCacheHandler.cacheFileName k)
      (partitionOf st ty) = some (.entry e))
    (hd : deserializeFromStorage e = .error ()) :
    FileCacheHandler.readCacheEntry st k ty = none := by
  rw [readCacheEntry_entry st k ty e h, hd]
  rfl

theorem get_set_hit (st : Store) (k : String) (v : JsVal)
    (tags : List String) (now : Nat) (ctx : Option GetCtx)
    (hs : supportedValue v = true)
    (hc : FileCacheHandler.determineCacheType ctx =
      FileCacheHandler.cacheTypeOfValue v) :
    FileCacheHandler.get (FileCacheHandler.set st k v tags now true) k ctx =
      some ⟨v, now, tags⟩ := by
  unfold FileCacheHandler.get
  rw [hc]
  have hl : alistLookup (FileCacheHandler.cacheFileName k)
      (partitionOf (FileCacheHandler.set st k v tags now true)
        (FileCacheHandler.cacheTypeOfValue v)) =
      some (.entry (jsonRTEntry (serializeForStorage ⟨v, now, tags⟩))) := by
    rw [partitionOf_set, alistLookup_put_self]
  rw [readCacheEntry_entry _ _ _ _ hl, storageRoundTrip ⟨v, now, tags⟩ hs]
  rfl

theorem addKeyToTag_idem (k0 tag : String) (m : TagsMapping)
    (ks : List String) (h : alistLookup tag m = some ks) (hk : k0 ∈ ks) :
    FileCacheHandler.addKeyToTag k0 m tag = m := by
  rw [addKeyToTag_some k0 tag m ks h, if_pos hk]

theorem set_tagsMap (st : Store) (k : String) (v : JsVal)
    (tags : List String) (now : Nat) (ok : Bool) :
    (FileCacheHandler.set st k v tags now ok).tagsMap =
      if tags = [] then st.tagsMap
      else FileCacheHandler.updateTagsMapping k tags st.tagsMap := by
  unfold FileCacheHandler.set
  rcases tags with _ | ⟨tg, rest⟩
  · simp [tagsMap_writeCacheEntry]
  · simp [tagsMap_writeCacheEntry]

theorem keysForTag_set (st : Store) (k0 : String) (v : JsVal)
    (tags : List String) (now : Nat) (ok : Bool) (k t : String) :
    k ∈ keysForTag ((FileCacheHandler.set st k0 v tags now ok).tagsMap) t ↔
      k ∈ keysForTag st.tagsMap t ∨ (k = k0 ∧ t ∈ tags) := by
  rw [set_tagsMap]
  rcases tags with _ | ⟨tg, rest⟩
  · simp
  · rw [if_neg (by simp)]
    exact keysForTag_updateTagsMapping k k0 t (tg :: rest) st.tagsMap

theorem keysForTag_applySetOps (ops : List SetOp) (st : Store)
    (k t : String) :
    k ∈ keysForTag ((applySetOps st ops).tagsMap) t ↔
      k ∈ keysForTag st.tagsMap t ∨ ∃ o ∈ ops, o.key = k ∧ t ∈ o.tags := by
  induction ops generalizing st with
  | nil => simp [applySetOps]
  | cons o rest ih =>
      rw [show applySetOps st (o :: rest) =
        applySetOps (FileCacheHandler.set st o.key o.value o.tags o.now true)
          rest from rfl]
      rw [ih, keysForTag_set]
      simp only [List.mem_cons]
      constructor
      · rintro ((hh | ⟨h1, h2⟩) | ⟨o2, h1, h2, h3⟩)
        · exact Or.inl hh
        · exact Or.inr ⟨o, Or.inl rfl, h1.symm, h2⟩
        · exact Or.inr ⟨o2, Or.inr h1, h2, h3⟩
      · rintro (hh | ⟨o2, h1 | h1, h2, h3⟩)
        · exact Or.inl (Or.inl hh)
        · subst h1
          exact Or.inl (Or.inr ⟨h2.symm, h3⟩)
        · exact Or.inr ⟨o2, h1, h2, h3⟩

theorem set_writeFail_frame (st : Store) (k : String) (v : JsVal)
    (tags : List String) (now : Nat) :
    (FileCacheHandler.set st k v tags now false).fetchCache = st.fetchCache ∧
    (FileCacheHandler.set st k v tags now false).routeCache = st.routeCache ∧
    (FileCacheHandler.set st k v tags now false).buildMeta = st.buildMeta := by
  unfold FileCacheHandler.set FileCacheHandler.writeCacheEntry
  rcases tags with _ | ⟨tg, rest⟩ <;> simp

/-! ### Claim theorems -/

/-- C1: with keys `k1`, `k2` stored in the ROUTE partition under tag `T`
and `k3` under tag `U`, `revalidateTag("T")` reports an invalidated count
of 2 and removes `T` from the index, but `get` still returns `k1` and
`k2` afterwards: the ROUTE-partition blobs were never deleted, because
the FETCH-partition deletion attempt swallows its error and is counted
as a success, so the ROUTE fallback never runs. This exhibits the code
bug against the claim that every ROUTE-partition entry indexed under `T`
is actually deleted. -/
theorem revalidateTag_leaves_route_entries :
    (FileCacheHandler.revalidateTag revalScenario "T").2 = 2 ∧
    FileCacheHandler.get (FileCacheHandler.revalidateTag revalScenario "T").1
      "k1" none = some ⟨.str "x", 0, []⟩ ∧
    FileCacheHandler.get (FileCacheHandler.revalidateTag revalScenario "T").1
      "k2" none = some ⟨.str "x", 0, []⟩ ∧
    FileCacheHandler.get (FileCacheHandler.revalidateTag revalScenario "T").1
      "k3" none = some ⟨.str "x", 0, []⟩ ∧
    (FileCacheHandler.revalidateTag revalScenario "T").1.tagsMap =
      [("U", ["k3"])] := by
  decide

/-- C2 counterexample: a byte sequence nested at a depth the codec does
not handle (field `html`) is not restored by decode ∘ encode: it comes
back as the tagged plain object produced by `Buffer.toJSON`, so the
round trip at arbitrary nesting depth fails. -/
theorem codec_nested_buffer_not_restored :
    codecRoundTrip nestedBufferPayload =
      .ok (.obj [("kind", .str "APP_ROUTE"),
        ("html", .obj [("type", .str "Buffer"),
          ("data", .arr [.num 104, .num 105])])]) ∧
    codecRoundTrip nestedBufferPayload ≠ .ok nestedBufferPayload := by
  decide

/-- C2 (amended): decode ∘ encode is the identity on every supported
payload: an object whose byte sequences occur only at the three handled
positions — directly under `body` or `rscData`, and as entry values of a
`segmentData` Map — with the rest of the payload JSON-native. -/
theorem codec_roundTrip_supported_positions :
    ∀ v : JsVal, supportedValue v = true → codecRoundTrip v = .ok v :=
  codecRoundTrip_supported_aux

/-- C2 witness: the round trip restores a concrete payload exercising
all three supported byte positions. -/
theorem codec_roundTrip_supported_positions_witness :
    supportedValue supportedPayloadExample = true ∧
    codecRoundTrip supportedPayloadExample = .ok supportedPayloadExample :=
  ⟨by decide, codec_roundTrip_supported_positions supportedPayloadExample
    (by decide)⟩

/-- C3 counterexample: the file-backed guard does not evict on a changed
build identity: with persisted metadata `build-119999` (timestamp minute
1) and current build time 60000 (also minute 1, identity `build-60000`),
the identities differ yet the store is returned unchanged — the ROUTE
entry survives and no new BuildMeta is written. -/
theorem file_build_guard_ignores_identity_change :
    staleBuildStore.buildMeta = some ⟨"build-119999", 119999⟩ ∧
    ("build-119999" : String) ≠ "build-" ++ toString 60000 ∧
    FileCacheHandler.checkBuildInvalidation staleBuildStore 60000 =
      staleBuildStore ∧
    staleBuildStore.routeCache = [("r.json", .entry ⟨.str "x", 0, []⟩)] := by
  decide

/-- C3 (amended): the GCS guard evicts the ROUTE partition, leaves the
FETCH partition untouched and records new BuildMeta exactly when the
persisted buildId differs from the current one, and changes nothing when
they are equal; the file-backed guard keys on build minutes instead,
evicting only when the persisted minute is strictly older than the
current server-directory minute and changing nothing otherwise, even
when the identities differ. -/
theorem build_guard_eviction_spec :
    (∀ (st : Store) (id : String) (now : Nat) (m : BuildMeta),
      st.buildMeta = some m → m.buildId ≠ id →
        GcsCacheHandler.checkBuildInvalidation st id now =
          { st with routeCache := [], buildMeta := some ⟨id, now⟩ }) ∧
    (∀ (st : Store) (id : String) (now : Nat) (m : BuildMeta),
      st.buildMeta = some m → m.buildId = id →
        GcsCacheHandler.checkBuildInvalidation st id now = st) ∧
    (∀ (st : Store) (t : Nat) (m : BuildMeta),
      st.buildMeta = some m → m.timestamp / 60000 < t / 60000 →
        FileCacheHandler.checkBuildInvalidation st t =
          { st with routeCache := [],
                    buildMeta := some ⟨"build-" ++ toString t, t⟩ }) ∧
    (∀ (st : Store) (t : Nat) (m : BuildMeta),
      st.buildMeta = some m → ¬(m.timestamp / 60000 < t / 60000) →
        FileCacheHandler.checkBuildInvalidation st t = st) ∧
    (∀ (st : Store) (id : String) (now : Nat),
      (GcsCacheHandler.checkBuildInvalidation st id now).fetchCache =
        st.fetchCache) := by
  refine ⟨?_, ?_, ?_, ?_, ?_⟩
  · intro st id now m hm hne
    unfold GcsCacheHandler.checkBuildInvalidation
    rw [hm]
    simp only [if_pos hne]
  · intro st id now m hm he
    unfold GcsCacheHandler.checkBuildInvalidation
    rw [hm]
    simp [he]
  · intro st t m hm hlt
    unfold FileCacheHandler.checkBuildInvalidation
    rw [hm]
    simp only [if_pos hlt]
  · intro st t m hm hge
    unfold FileCacheHandler.checkBuildInvalidation
    rw [hm]
    simp only [if_neg hge]
  · intro st id now
    unfold GcsCacheHandler.checkBuildInvalidation
    cases hm : st.buildMeta with
    | none => rfl
    | some m =>
        by_cases he : m.buildId ≠ id
        · simp [he]
        · simp [he]

/-- C3 witness: a changed buildId evicts ROUTE and keeps FETCH under the
GCS guard; an identity change within the same build minute changes
nothing under the file guard. -/
theorem build_guard_eviction_spec_witness :
    GcsCacheHandler.checkBuildInvalidation
      ⟨[("f.json", .entry ⟨.str "d", 3, []⟩)],
       [("r.json", .entry ⟨.str "x", 0, []⟩)], [],
       some ⟨"build-a", 3⟩⟩ "build-b" 7 =
      ⟨[("f.json", .entry ⟨.str "d", 3, []⟩)], [], [],
       some ⟨"build-b", 7⟩⟩ ∧
    FileCacheHandler.checkBuildInvalidation staleBuildStore 60000 =
      staleBuildStore := by
  constructor
  · rw [build_guard_eviction_spec.1 _ "build-b" 7 ⟨"build-a", 3⟩ rfl
      (by decide)]
  · exact build_guard_eviction_spec.2.2.2.1 staleBuildStore 60000
      ⟨"build-119999", 119999⟩ rfl (by decide)

/-- C4 counterexample: after `set("k", v1, ["A"])` then
`set("k", v2, ["B"])`, the key still appears under tag `A` in the index:
an overwrite does not replace the key's index membership wholesale. -/
theorem tag_index_keeps_old_tag_on_overwrite :
    keysForTag ((applySetOps initialStore
      [⟨"k", .str "v1", ["A"], 1⟩, ⟨"k", .str "v2", ["B"], 2⟩]).tagsMap)
      "A" = ["k"] ∧
    "k" ∈ keysForTag ((applySetOps initialStore
      [⟨"k", .str "v1", ["A"], 1⟩, ⟨"k", .str "v2", ["B"], 2⟩]).tagsMap)
      "A" := by
  decide

/-- C4 (amended): starting from the freshly initialized index, after any
sequence of `set` operations a key appears under a tag in the tag index
if and only if SOME write of that key declared that tag — index
membership accumulates across overwrites instead of being replaced
wholesale by the most recent write's tag set. -/
theorem tag_index_membership_cumulative :
    ∀ (ops : List SetOp) (k t : String),
      k ∈ keysForTag ((applySetOps initialStore ops).tagsMap) t ↔
        ∃ o ∈ ops, o.key = k ∧ t ∈ o.tags := by
  intro ops k t
  rw [keysForTag_applySetOps]
  simp [initialStore, keysForTag, alistLookup]

/-- C5 counterexample: the DELETE /cache-stats handler clears through the
file-backed `clearSharedCache`, which removes every ROUTE entry — the
key `sk`, although a member of the StaticRouteSet `["sk"]`, does not
survive the clear. -/
theorem file_clear_removes_static_route :
    ("sk" : String) ∈ (["sk"] : List String) ∧
    (cacheStatsDelete staticRouteStore).1.routeCache = [] ∧
    FileCacheHandler.get (cacheStatsDelete staticRouteStore).1 "sk" none =
      none ∧
    (cacheStatsDelete staticRouteStore).2 = 1 := by
  decide

/-- C5 (amended): the DELETE /cache-stats clear (file-backed) removes
every entry of both partitions — including StaticRouteSet members — and
returns the total count; the StaticRouteSet preservation exists only in
the GCS `clearSharedCache`, where a ROUTE entry survives exactly when
its cache key is in the supplied static-route set, the FETCH partition
and tag index are cleared, and the returned count excludes the
preserved entries. -/
theorem clear_shared_cache_spec :
    (∀ st : Store, cacheStatsDelete st =
      (⟨[], [], [], st.buildMeta⟩,
       st.fetchCache.length + st.routeCache.length)) ∧
    (∀ (st : Store) (staticRoutes : List String) (p : String × Blob),
      p ∈ (GcsCacheHandler.clearSharedCache st staticRoutes).1.routeCache ↔
        p ∈ st.routeCache ∧
          staticRoutes.contains (GcsCacheHandler.stripJsonSuffix p.1) =
            true) ∧
    (∀ (st : Store) (staticRoutes : List String),
      (GcsCacheHandler.clearSharedCache st staticRoutes).1.fetchCache = [] ∧
      (GcsCacheHandler.clearSharedCache st staticRoutes).1.tagsMap = [] ∧
      (GcsCacheHandler.clearSharedCache st staticRoutes).2 =
        st.fetchCache.length + (st.routeCache.filter (fun p =>
          !staticRoutes.contains (GcsCacheHandler.stripJsonSuffix p.1))).length) := by
  refine ⟨fun st => rfl, ?_, fun st staticRoutes => ⟨rfl, rfl, rfl⟩⟩
  intro st staticRoutes p
  simp [GcsCacheHandler.clearSharedCache, List.mem_filter]

/-- C6: a key never written reads as absent; immediately after a
successful `set(k, v, tags)` of a supported payload, `get(k)` with a
hint matching the value's partition returns the entry with value deep
equal to `v`, exactly the supplied tags, and `lastModified` equal to the
store clock `now` at write time — the caller's context carries no
timestamp, so the timestamp can only come from the store. -/
theorem get_miss_then_hit :
    (∀ (st : Store) (k : String) (ctx : Option GetCtx),
      alistLookup (FileCacheHandler.cacheFileName k)
        (partitionOf st (FileCacheHandler.determineCacheType ctx)) = none →
      FileCacheHandler.get st k ctx = none) ∧
    (∀ (st : Store) (k : String) (v : JsVal) (tags : List String)
      (now : Nat) (ctx : Option GetCtx),
      supportedValue v = true →
      FileCacheHandler.determineCacheType ctx =
        FileCacheHandler.cacheTypeOfValue v →
      FileCacheHandler.get (FileCacheHandler.set st k v tags now true) k
        ctx = some ⟨v, now, tags⟩) := by
  constructor
  · intro st k ctx h
    exact readCacheEntry_absent st k _ h
  · intro st k v tags now ctx hs hc
    exact get_set_hit st k v tags now ctx hs hc

/-- C6 witness: miss before writing, hit with the written value, tags
and store-assigned timestamp after. -/
theorem get_miss_then_hit_witness :
    FileCacheHandler.get initialStore "post-1" (some fetchCtx) = none ∧
    FileCacheHandler.get (FileCacheHandler.set initialStore "post-1"
      supportedPayloadExample ["blog"] 5 true) "post-1" (some fetchCtx) =
      some ⟨supportedPayloadExample, 5, ["blog"]⟩ :=
  ⟨get_miss_then_hit.1 initialStore "post-1" (some fetchCtx) (by decide),
   get_miss_then_hit.2 initialStore "post-1" supportedPayloadExample
     ["blog"] 5 (some fetchCtx) (by decide) (by decide)⟩

/-- C7: `get` surfaces every failure as absent rather than as an error:
a missing blob, an unparseable blob and a throwing decode all read as
`none`, and `get` is exactly the (total, never-throwing) read of the
selected partition. -/
theorem get_absent_on_failures :
    (∀ (st : Store) (k : String) (ty : CacheKind),
      alistLookup (FileCacheHandler.cacheFileName k)
        (partitionOf st ty) = none →
      FileCacheHandler.readCacheEntry st k ty = none) ∧
    (∀ (st : Store) (k : String) (ty : CacheKind),
      alistLookup (FileCacheHandler.cacheFileName k)
        (partitionOf st ty) = some .corrupt →
      FileCacheHandler.readCacheEntry st k ty = none) ∧
    (∀ (st : Store) (k : String) (ty : CacheKind) (e : CacheHandlerValue),
      alistLookup (FileCacheHandler.cacheFileName k)
        (partitionOf st ty) = some (.entry e) →
      deserializeFromStorage e = .error () →
      FileCacheHandler.readCacheEntry st k ty = none) ∧
    (∀ (st : Store) (k : String) (ctx : Option GetCtx),
      FileCacheHandler.get st k ctx =
        FileCacheHandler.readCacheEntry st k
          (FileCacheHandler.determineCacheType ctx)) := by
  refine ⟨readCacheEntry_absent, readCacheEntry_corrupt, ?_, ?_⟩
  · intro st k ty e h hd
    exact readCacheEntry_decode_failure st k ty e h hd
  · intro st k ctx
    rfl

/-- C7 witness: a corrupt blob, a blob whose decode throws
(`Buffer.from(undefined)`) and a missing blob all read as absent. -/
theorem get_absent_on_failures_witness :
    FileCacheHandler.readCacheEntry badBlobStore "c" .fetch = none ∧
    FileCacheHandler.readCacheEntry badBlobStore "e" .fetch = none ∧
    FileCacheHandler.readCacheEntry badBlobStore "missing" .fetch = none :=
  ⟨get_absent_on_failures.2.1 badBlobStore "c" .fetch (by decide),
   get_absent_on_failures.2.2.1 badBlobStore "e" .fetch
     ⟨.obj [("body", .obj [("type", .str "Buffer")])], 0, []⟩
     (by decide) (by decide),
   get_absent_on_failures.1 badBlobStore "missing" .fetch (by decide)⟩

/-- C8: `set` is a total operation (the model of: it never throws): a
failed backend write is swallowed, leaving the partitions and build
metadata unchanged while the operation still completes; and the tag
index is updated exactly when the supplied tag list is non-empty — a
`set` with empty tags leaves the tag index unchanged. -/
theorem set_best_effort_and_tag_condition :
    (∀ (st : Store) (k : String) (v : JsVal) (tags : List String)
      (now : Nat) (ok : Bool),
      (FileCacheHandler.set st k v tags now ok).tagsMap =
        if tags = [] then st.tagsMap
        else FileCacheHandler.updateTagsMapping k tags st.tagsMap) ∧
    (∀ (st : Store) (k : String) (v : JsVal) (tags : List String)
      (now : Nat),
      (FileCacheHandler.set st k v tags now false).fetchCache =
        st.fetchCache ∧
      (FileCacheHandler.set st k v tags now false).routeCache =
        st.routeCache ∧
      (FileCacheHandler.set st k v tags now false).buildMeta =
        st.buildMeta) :=
  ⟨set_tagsMap, set_writeFail_frame⟩

/-- C9: partition selection of `get`: no context reads ROUTE; a context
reads FETCH exactly when it carries a remote-fetch signal (`fetchCache`
present and true, or a `fetchUrl` or `fetchIdx` field present); `get`
consults only the selected partition, and a miss there is a miss of the
whole `get` — there is no fallback to the other partition. -/
theorem get_partition_selection :
    (FileCacheHandler.determineCacheType none = .route) ∧
    (∀ c : GetCtx, FileCacheHandler.determineCacheType (some c) = .fetch ↔
      (c.fetchCache = some true ∨ c.fetchUrl.isSome ∨ c.fetchIdx.isSome)) ∧
    (∀ (st : Store) (k : String) (ctx : Option GetCtx),
      FileCacheHandler.get st k ctx =
        FileCacheHandler.readCacheEntry st k
          (FileCacheHandler.determineCacheType ctx)) ∧
    (∀ (st : Store) (k : String) (ctx : Option GetCtx),
      alistLookup (FileCacheHandler.cacheFileName k)
        (partitionOf st (FileCacheHandler.determineCacheType ctx)) = none →
      FileCacheHandler.get st k ctx = none) := by
  refine ⟨rfl, ?_, fun st k ctx => rfl, ?_⟩
  · intro c
    unfold FileCacheHandler.determineCacheType
    by_cases h1 : c.fetchCache = some true
    · simp [h1]
    · by_cases h2 : c.fetchUrl.isSome
      · simp [h1, h2]
      · by_cases h3 : c.fetchIdx.isSome
        · simp [h1, h2, h3]
        · simp [h1, h2, h3]
  · intro st k ctx h
    exact readCacheEntry_absent st k _ h

/-- C9 witness: a fetch-hinted `get` of a key that lives only in the
ROUTE partition misses — the ROUTE partition is not searched. -/
theorem get_partition_selection_witness :
    FileCacheHandler.get routeOnlyStore "k" (some fetchCtx) = none ∧
    FileCacheHandler.readCacheEntry routeOnlyStore "k" .route =
      some ⟨.str "x", 0, []⟩ :=
  ⟨get_partition_selection.2.2.2 routeOnlyStore "k" (some fetchCtx)
    (by decide), by decide⟩

/-- C10: every tag-index state reachable from the freshly initialized
empty mapping by the index's mutating operations keeps each tag's key
list duplicate-free, and adding a key already listed under a tag leaves
the whole mapping unchanged (per key-tag idempotence). -/
theorem tag_index_nodup_and_idempotent :
    (∀ m : TagsMapping, ReachableTagsMapping m →
      ∀ (t : String) (ks : List String),
        alistLookup t m = some ks → ks.Nodup) ∧
    (∀ (m : TagsMapping) (k tag : String) (ks : List String),
      alistLookup tag m = some ks → k ∈ ks →
      FileCacheHandler.addKeyToTag k m tag = m) :=
  ⟨fun m hr t ks hl =>
    reachable_tagsNodup m hr (t, ks) (mem_of_alistLookup t m ks hl),
   fun m k tag ks hl hk => addKeyToTag_idem k tag m ks hl hk⟩

/-- C10 witness: the reachable mapping built by one add operation has a
duplicate-free key list under its tag, and re-adding the same key
changes nothing. -/
theorem tag_index_nodup_and_idempotent_witness :
    (["k"] : List String).Nodup ∧
    FileCacheHandler.addKeyToTag "k"
      (FileCacheHandler.updateTagsMapping "k" ["t"] []) "t" =
      FileCacheHandler.updateTagsMapping "k" ["t"] [] :=
  ⟨tag_index_nodup_and_idempotent.1 _
    (.addKeys [] "k" ["t"] .init) "t" ["k"] (by decide),
   tag_index_nodup_and_idempotent.2
     (FileCacheHandler.updateTagsMapping "k" ["t"] []) "k" "t" ["k"]
     (by decide) (by decide)⟩
